import Mathlib

/-!
Verification of the concurrent session/room management and message-fan-out
engine of a multi-room TCP chat relay (Go, `server.go`).

The embedding models the shared mutable state of the server (the `clients`
registry, the `rooms` directory, the `bannedUsers` list, the set of open
connections and the contents of the `broadcast` channel) as a record, and
each critical section of the Go code as a pure state transformer.  Strings
are modelled as lists of characters (`Str`) so that Go's `strings.Split`,
`strings.TrimSpace` and string formatting can be reasoned about directly.

Connections are identified by natural numbers; the per-connection `Client`
record carries the remote address, display name and current room exactly as
the Go struct does (`room = []` plays the role of Go's empty string "not in
a room" sentinel).  The Go code compares `*Client` pointers; since the server
allocates exactly one `Client` per connection, pointer equality coincides
with connection-identifier equality, which is what the model uses.
-/

namespace ChatRelay

/-- Strings of the protocol, modelled as lists of characters. -/
abbrev Str := List Char

/-- Go `strings.Split(s, " ")`: split at every single space character,
keeping empty fields.  `splitSp [] = [[]]` mirrors `Split("", " ") = [""]`. -/
def splitSp : Str → List Str
  | [] => [[]]
  | c :: rest =>
    match splitSp rest with
    | [] => [[]]
    | t :: ts => if c = ' ' then [] :: t :: ts else (c :: t) :: ts

/-- ASCII fragment of Go's `unicode.IsSpace`, which is what
`strings.TrimSpace` strips; the protocol lines only ever carry ASCII
whitespace at their ends (the trailing newline of `ReadString('\n')`). -/
def isSpaceChar (c : Char) : Bool :=
  c == ' ' || c == '\t' || c == '\n' || c == '\r'

/-- Go `strings.TrimSpace`: drop whitespace from both ends. -/
def trimSp (l : Str) : Str :=
  ((l.dropWhile isSpaceChar).reverse.dropWhile isSpaceChar).reverse

/-- Go `strings.HasPrefix(message, "/")`. -/
def startsSlash : Str → Bool
  | [] => false
  | c :: _ => c = '/'

/-- Association-list lookup, the model of reading a Go map. -/
def lookupKey {α β : Type} [DecidableEq α] (k : α) : List (α × β) → Option β
  | [] => none
  | (k', v) :: t => if k' = k then some v else lookupKey k t

/-- Association-list update, the model of a Go map assignment `m[k] = v`
(updates the entry when the key is present, inserts it otherwise). -/
def mapSet {α β : Type} [DecidableEq α] (k : α) (v : β) : List (α × β) → List (α × β)
  | [] => [(k, v)]
  | (k', v') :: t => if k' = k then (k, v) :: t else (k', v') :: mapSet k v t

/-- Association-list deletion, the model of Go `delete(m, k)`. -/
def mapErase {α β : Type} [DecidableEq α] (k : α) : List (α × β) → List (α × β)
  | [] => []
  | (k', v') :: t => if k' = k then t else (k', v') :: mapErase k t

/-- `removeClient` (server.go): returns the slice with the first occurrence
of the given client removed, or the slice unchanged when it is absent. -/
def removeClient : List Nat → Nat → List Nat
  | [], _ => []
  | c :: t, x => if c = x then t else c :: removeClient t x

/-- Insertion into the `bannedUsers` map keyed by address: inserting a key
that is already present leaves the map unchanged (the stored record is a
function of the key alone). -/
def insertAddr (a : Str) (bs : List Str) : List Str :=
  if a ∈ bs then bs else bs ++ [a]

/-- The Go `Client` struct: remote address (`conn.RemoteAddr().String()`),
display name (`username`, defaults to "Anonymous") and current room
(`room`, `[]` meaning "not in a room").  The connection handle itself is
the key under which the record is stored. -/
structure Client where
  addr : Str
  username : Str
  room : Str
deriving DecidableEq, Repr

/-- The shared mutable state of the server:
`clients` is the registry mapping connections to their `Client` records,
`rooms` maps room names to the ordered list of member connections,
`bannedUsers` is the set of banned addresses,
`openConns` is the set of currently open connections (the environment fact
the Go runtime maintains), and `queue` holds the messages sent on the
`broadcast` channel that the router has not consumed yet, in FIFO order. -/
structure ServerState where
  clients : List (Nat × Client)
  rooms : List (Str × List Nat)
  bannedUsers : List Str
  openConns : List Nat
  queue : List Str
deriving DecidableEq, Repr

/-! ### Protocol strings, as formatted by server.go -/

def bannedMsg : Str := "You are banned from the chat.\n".data

def usageJoin : Str := "Usage: /join [room_name]\n".data

def usageCreate : Str := "Usage: /create [room_name]\n".data

def roomNotFound (rn : Str) : Str :=
  "Room ".data ++ rn ++ " does not exist. Use /create [room_name] to create a new room.\n".data

def roomExistsMsg (rn : Str) : Str :=
  "Room ".data ++ rn ++ " already exists. Use /join [room_name] to join the room.\n".data

def joinedMsg (rn : Str) : Str := "Joined room ".data ++ rn ++ "\n".data

def createdMsg (rn : Str) : Str := "Created and joined room ".data ++ rn ++ "\n".data

def joinFirstMsg : Str :=
  "You must join a room first using /join [room_name] or create a room using /create [room_name].\n".data

def kickedMsg : Str := "You have been kicked from the chat.\n".data

def helpMsg : Str :=
  ("/join [room_name] - Join a room\n" ++ "/create [room_name] - Create a room\n"
    ++ "/help - Show this help message\n").data

def unknownMsg : Str := "Unknown command. Type /help for a list of commands.\n".data

/-- The chat line as `handleConnection` renders it:
`fmt.Sprintf("[%s] %s - %s: %s\n", room, time.Now().Format("3:04PM"), username, message)`.
The formatted clock value is a parameter (`time`). -/
def renderChat (room time user text : Str) : Str :=
  "[".data ++ room ++ "] ".data ++ time ++ " - ".data ++ user ++ ": ".data ++ text ++ "\n".data

/-- The notice line `fmt.Sprintf("[%s] Notice: \"%s\" %s the chat room.\n", ...)`. -/
def renderNotice (room user verb : Str) : Str :=
  "[".data ++ room ++ "] Notice: \"".data ++ user ++ "\" ".data ++ verb
    ++ " the chat room.\n".data

def leaveNotice (room user : Str) : Str := renderNotice room user "left".data

def joinNotice (room user : Str) : Str := renderNotice room user "joined".data

def createdNotice (room user : Str) : Str := renderNotice room user "created and joined".data

/-- The chat-line format exactly as the specification words it:
room in brackets, then the time, then the display name followed by a colon,
then the text — with single spaces between the fields and no other
separator.  Introduced only to compare against `renderChat`. -/
def specRenderChat (room time user text : Str) : Str :=
  "[".data ++ room ++ "] ".data ++ time ++ " ".data ++ user ++ ": ".data ++ text ++ "\n".data

/-! ### The command interpreter (`handleCommand`) -/

/-- `handleCommand(message, client)` of server.go, acting on connection `c`.
The message is the trimmed input line (which starts with `/`).  Returns the
new state together with the list of point-to-point writes `(conn, text)`
performed, in order.  Notices handed to the broadcast channel are appended
to `queue`. -/
def handleCommand (msg : Str) (c : Nat) (s : ServerState) : ServerState × List (Nat × Str) :=
  match lookupKey c s.clients with
  | none => (s, [])
  | some cl =>
    let parts := splitSp msg
    let command := parts.headD []
    if command = "/join".data then
      if parts.length < 2 then (s, [(c, usageJoin)])
      else
        let roomName := parts.getD 1 []
        match lookupKey roomName s.rooms with
        | none => (s, [(c, roomNotFound roomName)])
        | some _ =>
          if cl.addr ∈ s.bannedUsers then (s, [(c, bannedMsg)])
          else
            let s1 :=
              if cl.room ≠ [] then
                { s with
                  rooms := mapSet cl.room
                    (removeClient ((lookupKey cl.room s.rooms).getD []) c) s.rooms
                  queue := s.queue ++ [leaveNotice cl.room cl.username] }
              else s
            ({ s1 with
               rooms := mapSet roomName (((lookupKey roomName s1.rooms).getD []) ++ [c]) s1.rooms
               clients := mapSet c { cl with room := roomName } s1.clients
               queue := s1.queue ++ [joinNotice roomName cl.username] },
             [(c, joinedMsg roomName)])
    else if command = "/create".data then
      if parts.length < 2 then (s, [(c, usageCreate)])
      else
        let roomName := parts.getD 1 []
        match lookupKey roomName s.rooms with
        | some _ => (s, [(c, roomExistsMsg roomName)])
        | none =>
          if cl.addr ∈ s.bannedUsers then (s, [(c, bannedMsg)])
          else
            let s0 := { s with rooms := mapSet roomName [] s.rooms }
            let s1 :=
              if cl.room ≠ [] then
                { s0 with
                  rooms := mapSet cl.room
                    (removeClient ((lookupKey cl.room s0.rooms).getD []) c) s0.rooms
                  queue := s0.queue ++ [leaveNotice cl.room cl.username] }
              else s0
            ({ s1 with
               rooms := mapSet roomName (((lookupKey roomName s1.rooms).getD []) ++ [c]) s1.rooms
               clients := mapSet c { cl with room := roomName } s1.clients
               queue := s1.queue ++ [createdNotice roomName cl.username] },
             [(c, createdMsg roomName)])
    else if command = "/help".data then (s, [(c, helpMsg)])
    else (s, [(c, unknownMsg)])

/-! ### The broadcast router (`handleBroadcast`)

The Go router ranges over `rooms[room]` while `removeClient` mutates the
slice's backing array in place.  The model makes the aliasing explicit: it
carries the backing array `arr` (whose length never changes during the
loop) together with the current slice length `m`; the live slice is always
`arr.take m`.  Removing the member at index `j` shifts the elements
`j+1 .. m-1` one place left and leaves positions `m-1 .. n-1` untouched,
exactly as Go's `append(slice[:i], slice[i+1:]...)` does. -/

/-- In-place removal of the first occurrence of `c` from the slice
`arr.take m` of the backing array `arr`. -/
def pruneArr (arr : List Nat) (m : Nat) (c : Nat) : List Nat × Nat :=
  if c ∈ arr.take m then
    (removeClient (arr.take m) c ++ arr.drop (m - 1), m - 1)
  else (arr, m)

/-- State of the router's fan-out loop: backing array, slice length,
registry and open-connection set as mutated so far, and the list of
connections successfully written to, in order. -/
structure FanState where
  arr : List Nat
  m : Nat
  clients : List (Nat × Client)
  openConns : List Nat
  delivered : List Nat
deriving DecidableEq, Repr

/-- One iteration of the router's `for _, client := range rooms[room]` body:
read the element at the range index from the (possibly mutated) backing
array; on a write failure (`c ∈ dead`) close the connection, delete it from
the registry and remove it from the room slice; otherwise the write
succeeds and `c` is recorded as delivered. -/
def fanStep (dead : List Nat) (fs : FanState) (idx : Nat) : FanState :=
  match fs.arr.get? idx with
  | none => fs
  | some c =>
    if c ∈ dead then
      let p := pruneArr fs.arr fs.m c
      { fs with
        arr := p.1
        m := p.2
        clients := mapErase c fs.clients
        openConns := removeClient fs.openConns c }
    else { fs with delivered := fs.delivered ++ [c] }

/-- The whole range loop: Go fixes the iteration count to the length the
slice had when the loop started, so the index list is `List.range n`. -/
def fanLoop (dead : List Nat) : List Nat → FanState → FanState
  | [], fs => fs
  | idx :: rest, fs => fanLoop dead rest (fanStep dead fs idx)

/-- The router's room extraction:
`parts := strings.SplitN(message, " ", 3); room := parts[0][1:len(parts[0])-1]`.
`SplitN(_, " ", 3)` has the same first element as `Split(_, " ")`. -/
def parseRoom (msg : Str) : Str :=
  (((splitSp msg).headD []).drop 1).dropLast

/-- One message's fan-out by `handleBroadcast`: parse the target room from
the message, run the range loop over its member slice, and store the final
slice back.  `dead` is the set of connections whose `Write` fails.  Returns
the new state and the connections the message was written to. -/
def handleBroadcastMsg (dead : List Nat) (msg : Str) (s : ServerState) :
    ServerState × List Nat :=
  let room := parseRoom msg
  let members := (lookupKey room s.rooms).getD []
  let fs := fanLoop dead (List.range members.length)
    ⟨members, members.length, s.clients, s.openConns, []⟩
  ({ s with
     clients := fs.clients
     openConns := fs.openConns
     rooms := if (lookupKey room s.rooms).isSome
       then mapSet room (fs.arr.take fs.m) s.rooms else s.rooms },
   fs.delivered)

/-! ### Moderation (`kickUser`, `banUser`) and the connection lifecycle -/

/-- The scan `for _, roomClients := range rooms { for i, client := range roomClients ... }`:
first room (in directory order) whose member list contains the connection. -/
def findRoomOf (c : Nat) : List (Str × List Nat) → Option (Str × List Nat)
  | [] => none
  | (r, ms) :: t => if c ∈ ms then some (r, ms) else findRoomOf c t

/-- `kickUser(conn)`: scan the room directory for the client; when found,
assign `rooms[client.room]` the found member list with the client removed
(note the written key is the client's `room` field, not necessarily the
room the scan found it in), clear `client.room`, and write the kick notice
to that connection.  When the client is in no room, nothing happens.
Room member lists reference the same `Client` records as the registry, so
the record the Go code mutates through the pointer is the registry entry. -/
def kickUser (c : Nat) (s : ServerState) : ServerState × List (Nat × Str) :=
  match findRoomOf c s.rooms with
  | none => (s, [])
  | some (_r, ms) =>
    match lookupKey c s.clients with
    | none => (s, [])
    | some cl =>
      ({ s with
         rooms := mapSet cl.room (removeClient ms c) s.rooms
         clients := mapSet c { cl with room := [] } s.clients },
       [(c, kickedMsg)])

/-- `banUser(conn)`: insert the connection's remote address into
`bannedUsers`, then kick it.  The admin console only invokes it on
connections found in the registry, whence the lookup. -/
def banUser (c : Nat) (s : ServerState) : ServerState × List (Nat × Str) :=
  match lookupKey c s.clients with
  | none => (s, [])
  | some cl => kickUser c { s with bannedUsers := insertAddr cl.addr s.bannedUsers }

/-- Does some currently open connection have the given remote address?
(Two simultaneously open TCP connections never share a remote
address/port pair; the accept transition is guarded by this fact.) -/
def openAddrUsed (a : Str) (s : ServerState) : Bool :=
  s.clients.any (fun p => decide (p.1 ∈ s.openConns ∧ p.2.addr = a))

/-- The prologue of `handleConnection`: register the fresh connection in
`clients` (before any check), then, if its address is banned, write the
banned notice and close the connection — without unregistering it.
The guard models the environment: the accepted connection is fresh and its
remote address differs from that of every open connection. -/
def connectConn (c : Nat) (a : Str) (s : ServerState) : ServerState × List (Nat × Str) :=
  if c ∈ s.openConns ∨ (lookupKey c s.clients).isSome = true ∨ openAddrUsed a s = true then
    (s, [])
  else
    let s1 := { s with
                openConns := s.openConns ++ [c]
                clients := mapSet c ⟨a, "Anonymous".data, []⟩ s.clients }
    if a ∈ s1.bannedUsers then
      ({ s1 with openConns := removeClient s1.openConns c }, [(c, bannedMsg)])
    else (s1, [])

/-- The read-error branch of `handleConnection`: when the client was in a
room, remove it and send the leave notice to the broadcast channel; delete
the registry entry; the deferred `conn.Close()` closes the connection. -/
def disconnectConn (c : Nat) (s : ServerState) : ServerState × List (Nat × Str) :=
  if c ∈ s.openConns then
    match lookupKey c s.clients with
    | none => ({ s with openConns := removeClient s.openConns c }, [])
    | some cl =>
      let s1 :=
        if cl.room ≠ [] then
          { s with
            rooms := mapSet cl.room
              (removeClient ((lookupKey cl.room s.rooms).getD []) c) s.rooms
            queue := s.queue ++ [leaveNotice cl.room cl.username] }
        else s
      ({ s1 with
         clients := mapErase c s1.clients
         openConns := removeClient s1.openConns c }, [])
  else (s, [])

/-- One complete input line read by `handleConnection`'s loop (only open
connections produce input): trim it; a line starting with `/` goes to the
command interpreter; otherwise it is a chat line, rejected when the client
is in no room and rendered and sent to the broadcast channel otherwise.
`time` is the clock value `time.Now().Format("3:04PM")` at that moment. -/
def inputLine (c : Nat) (time line : Str) (s : ServerState) : ServerState × List (Nat × Str) :=
  if c ∈ s.openConns then
    match lookupKey c s.clients with
    | none => (s, [])
    | some cl =>
      let msg := trimSp line
      if startsSlash msg then handleCommand msg c s
      else if cl.room = [] then (s, [(c, joinFirstMsg)])
      else ({ s with queue := s.queue ++ [renderChat cl.room time cl.username msg] }, [])
  else (s, [])

/-! ### The event system -/

/-- The concurrently scheduled atomic transitions of the server: a
connection being accepted, a line arriving on a connection, a read failure
(disconnect), the router consuming one queued message (with the given set
of connections failing their write), and the admin console's kick and ban
(which the console invokes on a connection it found in the registry). -/
inductive Event where
  | connect (c : Nat) (a : Str)
  | input (c : Nat) (time line : Str)
  | disconnect (c : Nat)
  | router (dead : List Nat)
  | kick (c : Nat)
  | ban (c : Nat)
deriving Repr

/-- The transition function.  Each case is one critical section of the Go
code.  The writes of the router transition are the successful deliveries of
the dequeued message. -/
def step (e : Event) (s : ServerState) : ServerState × List (Nat × Str) :=
  match e with
  | .connect c a => connectConn c a s
  | .input c time line => inputLine c time line s
  | .disconnect c => disconnectConn c s
  | .router dead =>
    match s.queue with
    | [] => (s, [])
    | msg :: rest =>
      let r := handleBroadcastMsg dead msg { s with queue := rest }
      (r.1, r.2.map (fun k => (k, msg)))
  | .kick c =>
    if (lookupKey c s.clients).isSome then kickUser c s else (s, [])
  | .ban c => banUser c s

/-- The server starts with no connections, rooms, bans or queued messages. -/
def initState : ServerState := ⟨[], [], [], [], []⟩

/-- The state reached after a sequence of events. -/
def run (es : List Event) : ServerState :=
  es.foldl (fun s e => (step e s).1) initState

/-! ### The broadcast channel itself

`broadcast = make(chan string)` allocates a channel with no buffer.  A Go
channel send completes without a matching receive exactly when the number
of elements currently buffered is below the channel's capacity. -/

/-- Buffer capacity of the `broadcast` channel: `make(chan string)`. -/
def broadcastChanCapacity : Nat := 0

/-- Go channel-send semantics: can a send complete immediately, without a
receiver currently waiting, given the capacity and the number of buffered
elements? -/
def sendCompletesImmediately (cap buffered : Nat) : Bool :=
  buffered < cap


/-! ### Basic lemmas about the map and list operations -/

theorem lookupKey_mapSet_self {α β : Type} [DecidableEq α] (k : α) (v : β) (l : List (α × β)) :
    lookupKey k (mapSet k v l) = some v := by
  induction l with
  | nil => simp [mapSet, lookupKey]
  | cons hd tl ih =>
    obtain ⟨k', v'⟩ := hd
    by_cases h : k' = k
    · simp [mapSet, h, lookupKey]
    · simp [mapSet, h, lookupKey, ih]

theorem lookupKey_mapSet_ne {α β : Type} [DecidableEq α] {k k' : α} (v : β) (l : List (α × β))
    (h : k' ≠ k) : lookupKey k' (mapSet k v l) = lookupKey k' l := by
  induction l with
  | nil => simp [mapSet, lookupKey, Ne.symm h]
  | cons hd tl ih =>
    obtain ⟨k0, v0⟩ := hd
    by_cases h0 : k0 = k
    · subst h0
      simp [mapSet, lookupKey, Ne.symm h]
    · simp only [mapSet, if_neg h0, lookupKey]
      by_cases h1 : k0 = k'
      · simp [h1]
      · simp [h1, ih]

theorem lookupKey_mapErase_ne {α β : Type} [DecidableEq α] {k k' : α} (l : List (α × β))
    (h : k' ≠ k) : lookupKey k' (mapErase k l) = lookupKey k' l := by
  induction l with
  | nil => simp [mapErase]
  | cons hd tl ih =>
    obtain ⟨k0, v0⟩ := hd
    by_cases h0 : k0 = k
    · subst h0
      simp [mapErase, lookupKey, Ne.symm h]
    · simp only [mapErase, if_neg h0, lookupKey]
      by_cases h1 : k0 = k'
      · simp [h1]
      · simp [h1, ih]

theorem lookupKey_eq_none {α β : Type} [DecidableEq α] {k : α} {l : List (α × β)} :
    lookupKey k l = none ↔ k ∉ l.map Prod.fst := by
  induction l with
  | nil => simp [lookupKey]
  | cons hd tl ih =>
    obtain ⟨k0, v0⟩ := hd
    by_cases h0 : k0 = k
    · simp [lookupKey, h0]
    · simp [lookupKey, h0, ih, Ne.symm h0]

theorem lookupKey_isSome {α β : Type} [DecidableEq α] {k : α} {l : List (α × β)} :
    (lookupKey k l).isSome = true ↔ k ∈ l.map Prod.fst := by
  rcases h : lookupKey k l with _ | v
  · simpa using lookupKey_eq_none.mp h
  · simp only [Option.isSome_some, true_iff]
    by_contra hm
    rw [lookupKey_eq_none.mpr hm] at h
    exact Option.noConfusion h

theorem lookupKey_mapErase_self {α β : Type} [DecidableEq α] {k : α} {l : List (α × β)}
    (h : (l.map Prod.fst).Nodup) : lookupKey k (mapErase k l) = none := by
  induction l with
  | nil => simp [mapErase, lookupKey]
  | cons hd tl ih =>
    obtain ⟨k0, v0⟩ := hd
    simp only [List.map_cons, List.nodup_cons] at h
    by_cases h0 : k0 = k
    · subst h0
      simpa [mapErase] using lookupKey_eq_none.mpr h.1
    · simp [mapErase, h0, lookupKey, ih h.2]

theorem mem_keys_mapSet {α β : Type} [DecidableEq α] {k k' : α} {v : β} {l : List (α × β)} :
    k' ∈ (mapSet k v l).map Prod.fst ↔ k' = k ∨ k' ∈ l.map Prod.fst := by
  induction l with
  | nil => simp [mapSet]
  | cons hd tl ih =>
    obtain ⟨k0, v0⟩ := hd
    by_cases h0 : k0 = k
    · subst h0
      simp [mapSet]
    · simp only [mapSet, if_neg h0, List.map_cons, List.mem_cons, ih]
      tauto

theorem keys_mapSet_of_mem {α β : Type} [DecidableEq α] {k : α} (v : β) {l : List (α × β)}
    (h : k ∈ l.map Prod.fst) : (mapSet k v l).map Prod.fst = l.map Prod.fst := by
  induction l with
  | nil => simp at h
  | cons hd tl ih =>
    obtain ⟨k0, v0⟩ := hd
    by_cases h0 : k0 = k
    · simp [mapSet, h0]
    · simp only [List.map_cons, List.mem_cons] at h
      rcases h with h | h
      · exact absurd h.symm h0
      · simp [mapSet, h0, ih h]

theorem keys_mapSet_of_not_mem {α β : Type} [DecidableEq α] {k : α} (v : β) {l : List (α × β)}
    (h : k ∉ l.map Prod.fst) : (mapSet k v l).map Prod.fst = l.map Prod.fst ++ [k] := by
  induction l with
  | nil => simp [mapSet]
  | cons hd tl ih =>
    obtain ⟨k0, v0⟩ := hd
    simp only [List.map_cons, List.mem_cons] at h
    push_neg at h
    simp [mapSet, Ne.symm h.1, ih h.2]

theorem nodup_keys_mapSet {α β : Type} [DecidableEq α] {k : α} {v : β} {l : List (α × β)}
    (h : (l.map Prod.fst).Nodup) : ((mapSet k v l).map Prod.fst).Nodup := by
  by_cases hm : k ∈ l.map Prod.fst
  · rwa [keys_mapSet_of_mem v hm]
  · rw [keys_mapSet_of_not_mem v hm]
    refine List.nodup_append.mpr ⟨h, List.nodup_singleton k, fun x hx hk => ?_⟩
    simp only [List.mem_singleton] at hk
    exact hm (hk ▸ hx)

theorem keys_mapErase_sublist {α β : Type} [DecidableEq α] (k : α) (l : List (α × β)) :
    ((mapErase k l).map Prod.fst).Sublist (l.map Prod.fst) := by
  induction l with
  | nil => simp [mapErase]
  | cons hd tl ih =>
    obtain ⟨k0, v0⟩ := hd
    by_cases h0 : k0 = k
    · simp only [mapErase, if_pos h0, List.map_cons]
      exact (List.sublist_cons_self _ _)
    · simp only [mapErase, if_neg h0, List.map_cons]
      exact ih.cons₂ k0

theorem lookupKey_mem {α β : Type} [DecidableEq α] {k : α} {v : β} {l : List (α × β)}
    (h : lookupKey k l = some v) : (k, v) ∈ l := by
  induction l with
  | nil => simp [lookupKey] at h
  | cons hd tl ih =>
    obtain ⟨k0, v0⟩ := hd
    simp only [lookupKey] at h
    split at h
    · rename_i heq
      obtain rfl := Option.some.inj h
      exact heq ▸ List.mem_cons_self _ _
    · exact List.mem_cons_of_mem _ (ih h)

theorem mem_lookupKey {α β : Type} [DecidableEq α] {k : α} {v : β} {l : List (α × β)}
    (hmem : (k, v) ∈ l) (hnd : (l.map Prod.fst).Nodup) : lookupKey k l = some v := by
  induction l with
  | nil => simp at hmem
  | cons hd tl ih =>
    obtain ⟨k0, v0⟩ := hd
    simp only [List.map_cons, List.nodup_cons] at hnd
    rcases List.mem_cons.mp hmem with h | h
    · obtain ⟨h1, h2⟩ := Prod.mk.injEq .. ▸ h
      subst h1; subst h2
      simp [lookupKey]
    · have hk : k0 ≠ k := by
        rintro rfl
        exact hnd.1 (List.mem_map.mpr ⟨(k0, v), h, rfl⟩)
      simp [lookupKey, hk, ih h hnd.2]

theorem mapSet_eq_self {α β : Type} [DecidableEq α] {k : α} {v : β} {l : List (α × β)}
    (h : lookupKey k l = some v) : mapSet k v l = l := by
  induction l with
  | nil => simp [lookupKey] at h
  | cons hd tl ih =>
    obtain ⟨k0, v0⟩ := hd
    simp only [lookupKey] at h
    split at h
    · rename_i heq
      obtain rfl := Option.some.inj h
      simp [mapSet, heq]
    · rename_i hne
      simp [mapSet, hne, ih h]

theorem removeClient_sublist (l : List Nat) (c : Nat) : (removeClient l c).Sublist l := by
  induction l with
  | nil => simp [removeClient]
  | cons hd tl ih =>
    by_cases h0 : hd = c
    · simp only [removeClient, if_pos h0]
      exact List.sublist_cons_self _ _
    · simp only [removeClient, if_neg h0]
      exact ih.cons₂ hd

theorem mem_removeClient {l : List Nat} {c x : Nat} (h : x ∈ removeClient l c) : x ∈ l :=
  (removeClient_sublist l c).mem h

theorem removeClient_of_not_mem {l : List Nat} {c : Nat} (h : c ∉ l) : removeClient l c = l := by
  induction l with
  | nil => rfl
  | cons hd tl ih =>
    simp only [List.mem_cons] at h
    push_neg at h
    simp [removeClient, Ne.symm h.1, ih h.2]

theorem not_mem_removeClient {l : List Nat} {c : Nat} (h : l.Nodup) :
    c ∉ removeClient l c := by
  induction l with
  | nil => simp [removeClient]
  | cons hd tl ih =>
    simp only [List.nodup_cons] at h
    by_cases h0 : hd = c
    · subst h0
      simp only [removeClient, if_pos rfl]
      exact h.1
    · simp only [removeClient, if_neg h0, List.mem_cons]
      rintro (rfl | hm)
      · exact h0 rfl
      · exact ih h.2 hm

theorem mem_removeClient_ne {l : List Nat} {c x : Nat} (h : x ≠ c) :
    x ∈ removeClient l c ↔ x ∈ l := by
  induction l with
  | nil => simp [removeClient]
  | cons hd tl ih =>
    by_cases h0 : hd = c
    · subst h0
      simp [removeClient, List.mem_cons, h]
    · simp only [removeClient, if_neg h0, List.mem_cons, ih]

theorem mem_insertAddr {a x : Str} {bs : List Str} :
    x ∈ insertAddr a bs ↔ x = a ∨ x ∈ bs := by
  unfold insertAddr
  split
  · rename_i h
    constructor
    · exact Or.inr
    · rintro (rfl | hx)
      · exact h
      · exact hx
  · simp [or_comm]

theorem insertAddr_of_mem {a : Str} {bs : List Str} (h : a ∈ bs) : insertAddr a bs = bs := by
  simp [insertAddr, h]

theorem findRoomOf_eq_some {c : Nat} {rs : List (Str × List Nat)} {r : Str} {ms : List Nat}
    (h : findRoomOf c rs = some (r, ms)) : (r, ms) ∈ rs ∧ c ∈ ms := by
  induction rs with
  | nil => simp [findRoomOf] at h
  | cons hd tl ih =>
    obtain ⟨r0, ms0⟩ := hd
    by_cases h0 : c ∈ ms0
    · simp only [findRoomOf, if_pos h0, Option.some.injEq] at h
      obtain ⟨h1, h2⟩ := Prod.mk.injEq .. ▸ h.symm
      subst h1; subst h2
      exact ⟨List.mem_cons_self _ _, h0⟩
    · simp only [findRoomOf, if_neg h0] at h
      obtain ⟨h1, h2⟩ := ih h
      exact ⟨List.mem_cons_of_mem _ h1, h2⟩

theorem findRoomOf_eq_none {c : Nat} {rs : List (Str × List Nat)} :
    findRoomOf c rs = none ↔ ∀ p ∈ rs, c ∉ p.2 := by
  induction rs with
  | nil => simp [findRoomOf]
  | cons hd tl ih =>
    obtain ⟨r0, ms0⟩ := hd
    by_cases h0 : c ∈ ms0
    · simp [findRoomOf, h0]
    · simp [findRoomOf, h0, ih]

/-! ### Lemmas about `splitSp` -/

theorem splitSp_ne_nil (l : Str) : splitSp l ≠ [] := by
  induction l with
  | nil => simp [splitSp]
  | cons c rest ih =>
    obtain ⟨t, ts, hs⟩ := List.exists_cons_of_ne_nil ih
    simp only [splitSp, hs]
    by_cases hc : c = ' ' <;> simp [hc]

theorem splitSp_cons_eq {c : Char} {rest t : Str} {ts : List Str}
    (hs : splitSp rest = t :: ts) :
    splitSp (c :: rest) = if c = ' ' then [] :: t :: ts else (c :: t) :: ts := by
  simp only [splitSp, hs]

theorem splitSp_no_space {l t : Str} (h : t ∈ splitSp l) : ' ' ∉ t := by
  induction l generalizing t with
  | nil =>
    simp only [splitSp, List.mem_singleton] at h
    subst h; simp
  | cons c rest ih =>
    obtain ⟨t0, ts, hs⟩ := List.exists_cons_of_ne_nil (splitSp_ne_nil rest)
    rw [splitSp_cons_eq hs] at h
    by_cases hc : c = ' '
    · rw [if_pos hc] at h
      rcases List.mem_cons.mp h with rfl | h2
      · simp
      · exact ih (by rw [hs]; exact h2)
    · rw [if_neg hc] at h
      rcases List.mem_cons.mp h with rfl | h2
      · intro hmem
        rcases List.mem_cons.mp hmem with h3 | h3
        · exact hc h3.symm
        · exact ih (by rw [hs]; exact List.mem_cons_self t0 ts) h3
      · exact ih (by rw [hs]; exact List.mem_cons_of_mem t0 h2)

theorem splitSp_append_space {l : Str} (r : Str) (h : ∀ ch ∈ l, ch ≠ ' ') :
    splitSp (l ++ ' ' :: r) = l :: splitSp r := by
  induction l with
  | nil =>
    obtain ⟨t, ts, hs⟩ := List.exists_cons_of_ne_nil (splitSp_ne_nil r)
    rw [List.nil_append, splitSp_cons_eq hs, if_pos rfl, hs]
  | cons c rest ih =>
    have hc : c ≠ ' ' := h c (List.mem_cons_self c rest)
    have ih' := ih (fun ch hch => h ch (List.mem_cons_of_mem c hch))
    rw [List.cons_append, splitSp_cons_eq ih', if_neg hc]

theorem splitSp_of_no_space {l : Str} (h : ∀ ch ∈ l, ch ≠ ' ') : splitSp l = [l] := by
  induction l with
  | nil => rfl
  | cons c rest ih =>
    have hc : c ≠ ' ' := h c (List.mem_cons_self c rest)
    have ih' := ih (fun ch hch => h ch (List.mem_cons_of_mem c hch))
    rw [splitSp_cons_eq ih', if_neg hc]


/-! ### The accumulated effect of the router's removals

During one fan-out the router removes some set of connections (those whose
write failed) from the room slice, the registry and the open-connection
set, one at a time.  `removeAll`/`eraseAll` describe the accumulated
effect of those removals; the fan-out loop is then characterised by the
list `E` of connections it has pruned so far. -/

def removeAll (E : List Nat) (l : List Nat) : List Nat := E.foldl removeClient l

def eraseAll (E : List Nat) (m : List (Nat × Client)) : List (Nat × Client) :=
  E.foldl (fun acc k => mapErase k acc) m

theorem removeAll_nil (l : List Nat) : removeAll [] l = l := rfl

theorem removeAll_append_singleton (E : List Nat) (l : List Nat) (c : Nat) :
    removeAll (E ++ [c]) l = removeClient (removeAll E l) c := by
  simp [removeAll, List.foldl_append]

theorem eraseAll_append_singleton (E : List Nat) (m : List (Nat × Client)) (c : Nat) :
    eraseAll (E ++ [c]) m = mapErase c (eraseAll E m) := by
  simp [eraseAll, List.foldl_append]

theorem removeAll_sublist (E : List Nat) (l : List Nat) : (removeAll E l).Sublist l := by
  induction E generalizing l with
  | nil => exact List.Sublist.refl l
  | cons c E ih =>
    show (removeAll E (removeClient l c)).Sublist l
    exact (ih (removeClient l c)).trans (removeClient_sublist l c)

theorem nodup_removeAll {E l : List Nat} (h : l.Nodup) : (removeAll E l).Nodup :=
  (removeAll_sublist E l).nodup h

theorem mem_removeClient_iff {l : List Nat} {c x : Nat} (h : l.Nodup) :
    x ∈ removeClient l c ↔ x ∈ l ∧ x ≠ c := by
  by_cases hx : x = c
  · subst hx
    simp [not_mem_removeClient h]
  · simp [mem_removeClient_ne hx, hx]

theorem mem_removeAll {E l : List Nat} {x : Nat} (h : l.Nodup) :
    x ∈ removeAll E l ↔ x ∈ l ∧ x ∉ E := by
  induction E generalizing l with
  | nil => simp [removeAll]
  | cons c E ih =>
    show x ∈ removeAll E (removeClient l c) ↔ _
    rw [ih ((removeClient_sublist l c).nodup h), mem_removeClient_iff h]
    simp only [List.mem_cons]
    tauto

theorem keys_eraseAll_sublist (E : List Nat) (m : List (Nat × Client)) :
    ((eraseAll E m).map Prod.fst).Sublist (m.map Prod.fst) := by
  induction E generalizing m with
  | nil => exact List.Sublist.refl _
  | cons c E ih =>
    show ((eraseAll E (mapErase c m)).map Prod.fst).Sublist _
    exact (ih (mapErase c m)).trans (keys_mapErase_sublist c m)

theorem nodup_keys_eraseAll {E : List Nat} {m : List (Nat × Client)}
    (h : (m.map Prod.fst).Nodup) : ((eraseAll E m).map Prod.fst).Nodup :=
  (keys_eraseAll_sublist E m).nodup h

theorem lookupKey_eraseAll {E : List Nat} {m : List (Nat × Client)} {k : Nat}
    (h : (m.map Prod.fst).Nodup) :
    lookupKey k (eraseAll E m) = if k ∈ E then none else lookupKey k m := by
  induction E generalizing m with
  | nil => simp [eraseAll]
  | cons c E ih =>
    show lookupKey k (eraseAll E (mapErase c m)) = _
    rw [ih ((keys_mapErase_sublist c m).nodup h)]
    by_cases hkc : k = c
    · subst hkc
      simp [lookupKey_mapErase_self h]
    · by_cases hkE : k ∈ E
      · simp [hkE, List.mem_cons, hkc]
      · simp [hkE, List.mem_cons, hkc, lookupKey_mapErase_ne m hkc]

/-! ### Characterisation of the fan-out loop -/

theorem removeClient_length_of_mem {l : List Nat} {c : Nat} (h : c ∈ l) :
    (removeClient l c).length = l.length - 1 := by
  induction l with
  | nil => simp at h
  | cons hd tl ih =>
    by_cases h0 : hd = c
    · simp [removeClient, h0]
    · rcases List.mem_cons.mp h with h1 | h1
      · exact absurd h1.symm h0
      · have h2 : 1 ≤ tl.length := by
          cases tl
          · simp at h1
          · simp
        simp only [removeClient, if_neg h0, List.length_cons, ih h1]
        omega

theorem pruneArr_take (arr : List Nat) (m c : Nat) :
    ((pruneArr arr m c).1).take (pruneArr arr m c).2 = removeClient (arr.take m) c := by
  by_cases hmem : c ∈ arr.take m
  · have hP : pruneArr arr m c = (removeClient (arr.take m) c ++ arr.drop (m - 1), m - 1) := by
      unfold pruneArr
      rw [if_pos hmem]
    rw [hP]
    show List.take (m - 1) (removeClient (arr.take m) c ++ arr.drop (m - 1)) = _
    have hlen : (removeClient (arr.take m) c).length = (arr.take m).length - 1 :=
      removeClient_length_of_mem hmem
    have hle : (removeClient (arr.take m) c).length ≤ m - 1 := by
      rw [hlen, List.length_take]
      omega
    rw [List.take_append_eq_append_take]
    by_cases hm : m ≤ arr.length
    · have h1 : (removeClient (arr.take m) c).length = m - 1 := by
        rw [hlen, List.length_take, Nat.min_eq_left hm]
    
      rw [List.take_of_length_le (le_of_eq h1), h1, Nat.sub_self, List.take_zero,
        List.append_nil]
    · have hdrop : arr.drop (m - 1) = [] := by
        rw [List.drop_eq_nil_iff]
        omega
      rw [hdrop, List.take_nil, List.append_nil, List.take_of_length_le hle]
  · have hP : pruneArr arr m c = (arr, m) := by
      unfold pruneArr
      rw [if_neg hmem]
    rw [hP]
    exact (removeClient_of_not_mem hmem).symm

theorem pruneArr_subset (arr : List Nat) (m c : Nat) :
    ∀ v ∈ (pruneArr arr m c).1, v ∈ arr := by
  unfold pruneArr
  by_cases hmem : c ∈ arr.take m
  · rw [if_pos hmem]
    intro v hv
    rcases List.mem_append.mp hv with h | h
    · exact List.take_subset m arr (mem_removeClient h)
    · exact List.drop_subset _ arr h
  · rw [if_neg hmem]
    exact fun v hv => hv

/-- Invariant of the router's fan-out loop: some list `E` of pruned
connections (each a dead member of the original slice) accounts exactly
for the differences between the loop state and the initial data. -/
def FanChar (dead members0 : List Nat) (clients0 : List (Nat × Client))
    (open0 : List Nat) (fs : FanState) : Prop :=
  (∀ v ∈ fs.arr, v ∈ members0) ∧ (∀ v ∈ fs.delivered, v ∈ members0) ∧
  ∃ E : List Nat, (∀ x ∈ E, x ∈ members0 ∧ x ∈ dead) ∧
    fs.arr.take fs.m = removeAll E members0 ∧
    fs.clients = eraseAll E clients0 ∧
    fs.openConns = removeAll E open0

theorem fanStep_char {dead members0 : List Nat} {clients0 : List (Nat × Client)}
    {open0 : List Nat} {fs : FanState} (idx : Nat)
    (h : FanChar dead members0 clients0 open0 fs) :
    FanChar dead members0 clients0 open0 (fanStep dead fs idx) := by
  obtain ⟨harr, hdel, E, hE, htake, hcl, hop⟩ := h
  rcases hget : fs.arr.get? idx with _ | c
  · have heq : fanStep dead fs idx = fs := by
      simp only [fanStep, hget]
    rw [heq]
    exact ⟨harr, hdel, E, hE, htake, hcl, hop⟩
  · have hcmem : c ∈ members0 := harr c (List.get?_mem hget)
    by_cases hdead : c ∈ dead
    · have heq : fanStep dead fs idx =
        { fs with
          arr := (pruneArr fs.arr fs.m c).1
          m := (pruneArr fs.arr fs.m c).2
          clients := mapErase c fs.clients
          openConns := removeClient fs.openConns c } := by
        simp only [fanStep, hget, if_pos hdead]
      rw [heq]
      refine ⟨fun v hv => harr v (pruneArr_subset fs.arr fs.m c v hv), hdel,
        E ++ [c], ?_, ?_, ?_, ?_⟩
      · intro x hx
        rcases List.mem_append.mp hx with hx | hx
        · exact hE x hx
        · rcases List.mem_singleton.mp hx with rfl
          exact ⟨hcmem, hdead⟩
      · show ((pruneArr fs.arr fs.m c).1).take (pruneArr fs.arr fs.m c).2 = _
        rw [pruneArr_take, htake, removeAll_append_singleton]
      · show mapErase c fs.clients = _
        rw [hcl, eraseAll_append_singleton]
      · show removeClient fs.openConns c = _
        rw [hop, removeAll_append_singleton]
    · have heq : fanStep dead fs idx = { fs with delivered := fs.delivered ++ [c] } := by
        simp only [fanStep, hget, if_neg hdead]
      rw [heq]
      refine ⟨harr, ?_, E, hE, htake, hcl, hop⟩
      intro v hv
      rcases List.mem_append.mp hv with hv | hv
      · exact hdel v hv
      · rcases List.mem_singleton.mp hv with rfl
        exact hcmem

theorem fanLoop_char {dead members0 : List Nat} {clients0 : List (Nat × Client)}
    {open0 : List Nat} (idxs : List Nat) {fs : FanState}
    (h : FanChar dead members0 clients0 open0 fs) :
    FanChar dead members0 clients0 open0 (fanLoop dead idxs fs) := by
  induction idxs generalizing fs with
  | nil => exact h
  | cons idx rest ih => exact ih (fanStep_char idx h)

theorem fanChar_init (dead members0 : List Nat) (clients0 : List (Nat × Client))
    (open0 : List Nat) :
    FanChar dead members0 clients0 open0 ⟨members0, members0.length, clients0, open0, []⟩ := by
  refine ⟨fun v hv => hv, by simp, [], by simp, ?_, rfl, rfl⟩
  simp [removeAll]

/-- Everything the pack induction needs to know about one fan-out:
the final slice, registry and open set are the initial ones with the
pruned connections `E` removed, every pruned connection is a dead member
of the initial slice, and every delivery went to an initial member. -/
theorem handleBroadcastMsg_char (dead : List Nat) (msg : Str) (s : ServerState) :
    ∃ E : List Nat,
      (∀ x ∈ E, x ∈ (lookupKey (parseRoom msg) s.rooms).getD [] ∧ x ∈ dead) ∧
      (handleBroadcastMsg dead msg s).1.clients = eraseAll E s.clients ∧
      (handleBroadcastMsg dead msg s).1.openConns = removeAll E s.openConns ∧
      (handleBroadcastMsg dead msg s).1.rooms =
        (if (lookupKey (parseRoom msg) s.rooms).isSome
          then mapSet (parseRoom msg)
            (removeAll E ((lookupKey (parseRoom msg) s.rooms).getD [])) s.rooms
          else s.rooms) ∧
      (handleBroadcastMsg dead msg s).1.bannedUsers = s.bannedUsers ∧
      (handleBroadcastMsg dead msg s).1.queue = s.queue ∧
      (∀ v ∈ (handleBroadcastMsg dead msg s).2,
        v ∈ (lookupKey (parseRoom msg) s.rooms).getD []) := by
  have h := @fanLoop_char dead ((lookupKey (parseRoom msg) s.rooms).getD [])
    s.clients s.openConns
    (List.range ((lookupKey (parseRoom msg) s.rooms).getD []).length) _
    (fanChar_init _ _ _ _)
  obtain ⟨_harr, hdel, E, hE, htake, hcl, hop⟩ := h
  refine ⟨E, hE, ?_, ?_, ?_, rfl, rfl, ?_⟩
  · simpa [handleBroadcastMsg] using hcl
  · simpa [handleBroadcastMsg] using hop
  · simp only [handleBroadcastMsg]
    rw [htake]
  · simpa [handleBroadcastMsg] using hdel


/-! ### Fan-out without write failures -/

theorem fanLoop_no_dead {dead : List Nat} (idxs : List Nat) (fs : FanState)
    (h : ∀ v ∈ fs.arr, v ∉ dead) :
    fanLoop dead idxs fs =
      { fs with delivered := fs.delivered ++ idxs.filterMap (fun i => fs.arr.get? i) } := by
  induction idxs generalizing fs with
  | nil => simp [fanLoop]
  | cons idx rest ih =>
    show fanLoop dead rest (fanStep dead fs idx) = _
    rcases hget : fs.arr.get? idx with _ | c
    · have heq : fanStep dead fs idx = fs := by
        simp only [fanStep, hget]
      rw [heq, ih fs h]
      simp only [List.filterMap_cons, ← List.get?_eq_getElem?, hget]
    · have hc : c ∉ dead := h c (List.get?_mem hget)
      have heq : fanStep dead fs idx = { fs with delivered := fs.delivered ++ [c] } := by
        simp only [fanStep, hget, if_neg hc]
      rw [heq, ih ⟨fs.arr, fs.m, fs.clients, fs.openConns, fs.delivered ++ [c]⟩ h]
      simp only [List.filterMap_cons, ← List.get?_eq_getElem?, hget, List.append_assoc,
        List.singleton_append]

theorem filterMap_range_get (l : List Nat) :
    (List.range l.length).filterMap (fun i => l.get? i) = l := by
  induction l with
  | nil => simp
  | cons hd tl ih =>
    simp only [List.length_cons, List.range_succ_eq_map, List.filterMap_cons,
      List.get?_cons_zero, List.filterMap_map, Function.comp_def, List.get?_cons_succ]
    rw [ih]

theorem handleBroadcastMsg_delivered_no_dead (dead : List Nat) (msg : Str) (s : ServerState)
    (h : ∀ v ∈ (lookupKey (parseRoom msg) s.rooms).getD [], v ∉ dead) :
    (handleBroadcastMsg dead msg s).2 = (lookupKey (parseRoom msg) s.rooms).getD [] := by
  simp only [handleBroadcastMsg]
  rw [fanLoop_no_dead _ _ h]
  show [] ++ _ = _
  rw [List.nil_append, filterMap_range_get]

/-! ### Parsing the room back out of a rendered line -/

theorem parseRoom_bracket (room rest : Str) (h : ∀ ch ∈ room, ch ≠ ' ') :
    parseRoom ((('[' :: room) ++ [']']) ++ ' ' :: rest) = room := by
  have hall : ∀ ch ∈ ('[' :: room) ++ [']'], ch ≠ ' ' := by
    intro ch hch
    rcases List.mem_append.mp hch with hch | hch
    · rcases List.mem_cons.mp hch with rfl | hch
      · decide
      · exact h ch hch
    · rcases List.mem_singleton.mp hch with rfl
      decide
  unfold parseRoom
  rw [splitSp_append_space _ hall]
  show ((('[' :: room) ++ [']']).drop 1).dropLast = room
  rw [List.cons_append, List.drop_one, List.tail_cons, List.dropLast_concat]

theorem parseRoom_renderChat (room time user text : Str) (h : ∀ ch ∈ room, ch ≠ ' ') :
    parseRoom (renderChat room time user text) = room := by
  have e : renderChat room time user text =
      (('[' :: room) ++ [']']) ++ ' ' ::
        (time ++ " - ".data ++ user ++ ": ".data ++ text ++ "\n".data) := by
    have e1 : ("[".data : Str) = ['['] := rfl
    have e2 : ("] ".data : Str) = [']', ' '] := rfl
    rw [renderChat, e1, e2]
    simp [List.append_assoc]
  rw [e, parseRoom_bracket _ _ h]

theorem parseRoom_renderNotice (room user verb : Str) (h : ∀ ch ∈ room, ch ≠ ' ') :
    parseRoom (renderNotice room user verb) = room := by
  have e : renderNotice room user verb =
      (('[' :: room) ++ [']']) ++ ' ' ::
        ("Notice: \"".data ++ user ++ "\" ".data ++ verb ++ " the chat room.\n".data) := by
    have e1 : ("[".data : Str) = ['['] := rfl
    have e2 : ("] Notice: \"".data : Str) = [']'] ++ ' ' :: "Notice: \"".data := rfl
    rw [renderNotice, e1, e2]
    simp [List.append_assoc]
  rw [e, parseRoom_bracket _ _ h]


/-! ### A membership description of `mapSet` under unique keys -/

theorem mem_mapSet_strong {α β : Type} [DecidableEq α] {k : α} {v : β} {l : List (α × β)}
    {p : α × β} (hnd : (l.map Prod.fst).Nodup) :
    p ∈ mapSet k v l ↔ p = (k, v) ∨ (p ∈ l ∧ p.1 ≠ k) := by
  induction l with
  | nil => simp [mapSet]
  | cons hd tl ih =>
    obtain ⟨k0, v0⟩ := hd
    simp only [List.map_cons, List.nodup_cons] at hnd
    by_cases h0 : k0 = k
    · have e : mapSet k v ((k0, v0) :: tl) = (k, v) :: tl := by simp [mapSet, h0]
      rw [e]
      constructor
      · intro hp
        rcases List.mem_cons.mp hp with h | h
        · exact Or.inl h
        · refine Or.inr ⟨List.mem_cons_of_mem _ h, fun hk => ?_⟩
          exact hnd.1 (List.mem_map.mpr ⟨p, h, by rw [hk, ← h0]⟩)
      · intro hp
        rcases hp with h | ⟨hp1, hp2⟩
        · exact h ▸ List.mem_cons_self _ _
        · rcases List.mem_cons.mp hp1 with h | h
          · exact absurd (show p.1 = k by rw [h]; exact h0) hp2
          · exact List.mem_cons_of_mem _ h
    · have e : mapSet k v ((k0, v0) :: tl) = (k0, v0) :: mapSet k v tl := by
        simp [mapSet, h0]
      rw [e]
      constructor
      · intro hp
        rcases List.mem_cons.mp hp with h | h
        · exact Or.inr ⟨h ▸ List.mem_cons_self _ _, by rw [h]; exact h0⟩
        · rcases (ih hnd.2).mp h with h | ⟨h1, h2⟩
          · exact Or.inl h
          · exact Or.inr ⟨List.mem_cons_of_mem _ h1, h2⟩
      · intro hp
        rcases hp with h | ⟨hp1, hp2⟩
        · exact List.mem_cons_of_mem _ ((ih hnd.2).mpr (Or.inl h))
        · rcases List.mem_cons.mp hp1 with h | h
          · exact h ▸ List.mem_cons_self _ _
          · exact List.mem_cons_of_mem _ ((ih hnd.2).mpr (Or.inr ⟨h, hp2⟩))

/-! ### Example runs of the server -/

/-- Composition helper: the state after one more event. -/
def stepState (e : Event) (s : ServerState) : ServerState := (step e s).1

/-- Reachable state: sessions 1 and 2 are both members of room "x". -/
def exTwoInRoom : ServerState :=
  run [.connect 1 "A".data, .connect 2 "B".data,
    .input 1 "9:00AM".data "/create x\n".data,
    .input 2 "9:00AM".data "/join x\n".data]

/-- Reachable state: session 1 alone in room "a". -/
def exRoomA : ServerState :=
  run [.connect 1 "A".data, .input 1 "9:00AM".data "/create a\n".data]

/-- Reachable state: sessions 1, 2 and 3 in room "x" (in that order), the
three notices already drained by the router, and session 1's chat line
"hi" still queued. -/
def exThreeInRoom : ServerState :=
  stepState (.router []) (stepState (.router []) (stepState (.router [])
    (run [.connect 1 "A".data, .connect 2 "B".data, .connect 3 "C".data,
      .input 1 "9:00AM".data "/create x\n".data,
      .input 2 "9:00AM".data "/join x\n".data,
      .input 3 "9:00AM".data "/join x\n".data,
      .input 1 "9:01AM".data "hi\n".data])))

/-- Reachable state exercising the empty room name: "/create  q" (double
space) creates a room whose name is the empty string, so a session can be a
member of a room while its `room` field, also the empty string, reads as
"no room"; a later "/create x" then leaves session 1 in both rooms. -/
def exGhost : ServerState :=
  run [.connect 1 "A".data,
    .input 1 "9:00AM".data "/create  q\n".data,
    .input 1 "9:00AM".data "/join  q\n".data,
    .input 1 "9:00AM".data "/create x\n".data]

/-- Reachable state where session 2 sits in the empty-named room while its
`room` field says "x". -/
def exIncoherent : ServerState :=
  run [.connect 1 "A".data, .connect 2 "B".data,
    .input 1 "9:00AM".data "/create  q\n".data,
    .input 2 "9:00AM".data "/join  q\n".data,
    .input 2 "9:00AM".data "/create x\n".data]

/-! ### Claim C1 -/

/-- Claim C1, amended: a chat line published to a room is written to every
member of that room — including the sender — and to no session outside the
room's member list: when no member's write fails the delivery list equals
the member list, and in all cases every delivery goes to a member. -/
theorem C1_chat_fanout_room_members (dead : List Nat) (room time user text : Str)
    (s : ServerState) (hsp : ∀ ch ∈ room, ch ≠ ' ') :
    (∀ v ∈ (handleBroadcastMsg dead (renderChat room time user text) s).2,
      v ∈ (lookupKey room s.rooms).getD []) ∧
    ((∀ v ∈ (lookupKey room s.rooms).getD [], v ∉ dead) →
      (handleBroadcastMsg dead (renderChat room time user text) s).2
        = (lookupKey room s.rooms).getD []) := by
  have hpr := parseRoom_renderChat room time user text hsp
  constructor
  · intro v hv
    obtain ⟨E, hE, hcl, hop, hrooms, hb, hq, hdel⟩ :=
      handleBroadcastMsg_char dead (renderChat room time user text) s
    have hvm := hdel v hv
    rwa [hpr] at hvm
  · intro hnd
    have h := handleBroadcastMsg_delivered_no_dead dead (renderChat room time user text) s
      (by rwa [hpr])
    rwa [hpr] at h

/-- Witness for C1 on the reachable two-member room. -/
theorem C1_chat_fanout_room_members_witness :
    (∀ v ∈ (handleBroadcastMsg []
        (renderChat "x".data "9:01AM".data "Anonymous".data "hi".data) exTwoInRoom).2,
      v ∈ (lookupKey "x".data exTwoInRoom.rooms).getD []) ∧
    ((∀ v ∈ (lookupKey "x".data exTwoInRoom.rooms).getD [], v ∉ ([] : List Nat)) →
      (handleBroadcastMsg []
        (renderChat "x".data "9:01AM".data "Anonymous".data "hi".data) exTwoInRoom).2
        = (lookupKey "x".data exTwoInRoom.rooms).getD []) :=
  C1_chat_fanout_room_members [] "x".data "9:01AM".data "Anonymous".data "hi".data
    exTwoInRoom (by decide)

/-- Counterexample to C1 as stated: in the reachable state where sessions 1
and 2 are in room "x" and session 1 published "hi", the router writes the
rendered line back to session 1, the sender, as well. -/
theorem C1_counter_sender_echo :
    (step (.router [])
      (stepState (.router []) (stepState (.router [])
        (stepState (.input 1 "9:01AM".data "hi\n".data) exTwoInRoom)))).2
    = [(1, renderChat "x".data "9:01AM".data "Anonymous".data "hi".data),
       (2, renderChat "x".data "9:01AM".data "Anonymous".data "hi".data)] := by
  decide

/-! ### Claim C3 -/

/-- Claim C3, amended: a non-command line from a session whose current room
is set is rendered onto the broadcast queue exactly as
`"[{room}] {time} - {displayName}: {text}\n"` — with a " - " separator
between the clock value and the display name (`renderChat`), not the
single space the specification's format string shows. -/
theorem C3_chat_line_format (c : Nat) (time line : Str) (s : ServerState) (cl : Client)
    (hopen : c ∈ s.openConns) (hlk : lookupKey c s.clients = some cl)
    (hns : startsSlash (trimSp line) = false) (hroom : cl.room ≠ []) :
    step (.input c time line) s =
      ({ s with queue := s.queue ++ [renderChat cl.room time cl.username (trimSp line)] },
       []) := by
  simp only [step, inputLine, if_pos hopen, hlk, hns, Bool.false_eq_true, if_false,
    if_neg hroom]

/-- Witness for C3 on the reachable two-member room. -/
theorem C3_chat_line_format_witness :
    step (.input 1 "9:01AM".data "hi\n".data) exTwoInRoom =
      ({ exTwoInRoom with
         queue := exTwoInRoom.queue ++
           [renderChat "x".data "9:01AM".data "Anonymous".data (trimSp "hi\n".data)] },
       []) :=
  C3_chat_line_format 1 "9:01AM".data "hi\n".data exTwoInRoom
    ⟨"A".data, "Anonymous".data, "x".data⟩ (by decide) (by decide) (by decide) (by decide)

/-- Counterexample to C3 as stated: the line the code renders differs from
the format the specification gives (the code inserts " - " between the time
and the display name). -/
theorem C3_counter_format_separator :
    renderChat "x".data "3:04PM".data "Anonymous".data "hi".data ≠
      specRenderChat "x".data "3:04PM".data "Anonymous".data "hi".data := by
  decide

/-! ### Claim C4 -/

/-- Claim C4, amended: kicking a connected session that is in a room — in a
state where its membership is coherent with its `room` field and that room's
member list is duplicate-free — removes it from that room's member list (it
is no longer a member afterwards), clears its current room, writes the kick
notice to that connection only, broadcasts nothing (the queue is untouched),
leaves the connection open and the session registered, and a subsequent
non-command line from it is answered with the join-a-room-first reply.
Kicking a connected session that is in no member list does nothing at all
(in particular no notice is written). -/
theorem C4_kick_in_room_behavior (c : Nat) (s : ServerState) (cl : Client) (r : Str)
    (ms : List Nat)
    (hlk : lookupKey c s.clients = some cl)
    (hopen : c ∈ s.openConns)
    (hfind : findRoomOf c s.rooms = some (r, ms))
    (hroom : cl.room = r)
    (hnd : ms.Nodup) :
    kickUser c s =
      ({ s with
         rooms := mapSet r (removeClient ms c) s.rooms
         clients := mapSet c { cl with room := [] } s.clients }, [(c, kickedMsg)]) ∧
    c ∉ removeClient ms c ∧
    lookupKey c (kickUser c s).1.clients = some { cl with room := [] } ∧
    (kickUser c s).1.openConns = s.openConns ∧
    (kickUser c s).1.queue = s.queue ∧
    (∀ time line, startsSlash (trimSp line) = false →
      step (.input c time line) (kickUser c s).1 = ((kickUser c s).1, [(c, joinFirstMsg)])) := by
  have heq : kickUser c s =
      ({ s with
         rooms := mapSet r (removeClient ms c) s.rooms
         clients := mapSet c { cl with room := [] } s.clients }, [(c, kickedMsg)]) := by
    simp only [kickUser, hfind, hlk, hroom]
  refine ⟨heq, not_mem_removeClient hnd, ?_, ?_, ?_, ?_⟩
  · rw [heq]
    exact lookupKey_mapSet_self c _ s.clients
  · rw [heq]
  · rw [heq]
  · intro time line hns
    rw [heq]
    simp [step, inputLine, hopen, lookupKey_mapSet_self, hns]

/-- Witness for C4: kicking session 2 out of room "x" in the reachable
two-member state. -/
theorem C4_kick_in_room_behavior_witness :
    (kickUser 2 exTwoInRoom).1.queue = exTwoInRoom.queue ∧
    (kickUser 2 exTwoInRoom).2 = [(2, kickedMsg)] ∧
    lookupKey 2 (kickUser 2 exTwoInRoom).1.clients =
      some ⟨"B".data, "Anonymous".data, []⟩ := by
  have h := C4_kick_in_room_behavior 2 exTwoInRoom ⟨"B".data, "Anonymous".data, "x".data⟩
    "x".data [1, 2] (by decide) (by decide) (by decide) (by decide) (by decide)
  refine ⟨h.2.2.2.2.1, ?_, h.2.2.1⟩
  rw [h.1]

/-- Counterexample to C4 as stated: (a) kicking the connected but roomless
session 1 writes no "you have been kicked" notice (the claim promises one
for every kick of a connected session); (b) in the reachable state
`exGhost`, session 1's current room is "x" but kicking it leaves it a member
of room "x"'s member set, because the room scan finds its stale duplicate
membership in the empty-named room first and the removal is written to the
key taken from the `room` field. -/
theorem C4_counter_kick :
    ((kickUser 1 (run [.connect 1 "A".data])).2 = [] ∧
      1 ∈ (run [.connect 1 "A".data]).openConns ∧
      (lookupKey 1 (run [.connect 1 "A".data]).clients).isSome = true) ∧
    (lookupKey 1 exGhost.clients = some ⟨"A".data, "Anonymous".data, "x".data⟩ ∧
      1 ∈ (lookupKey "x".data (kickUser 1 exGhost).1.rooms).getD []) := by
  decide

/-! ### Claim C5 -/

/-- Claim C5 names an invariant the code breaks: `handleConnection`
registers a connection before the ban check and, on the banned path, closes
it and returns without unregistering it.  After address "A" is banned and a
fresh connection 2 arrives from it, connection 2 is closed yet still has a
registry entry. -/
theorem C5_registry_leak_on_banned_connect :
    (lookupKey 2 (run [.connect 1 "A".data, .ban 1, .disconnect 1,
      .connect 2 "A".data]).clients).isSome = true ∧
    2 ∉ (run [.connect 1 "A".data, .ban 1, .disconnect 1,
      .connect 2 "A".data]).openConns := by
  decide

/-! ### Claim C6 -/

/-- Claim C6: a /join naming a nonexistent room fails with the
room-not-found reply and leaves the whole state unchanged, and a /create
naming an existing room fails with the room-already-exists reply and leaves
the whole state unchanged (in particular the room directory, every member
set and the requester's current room are untouched). -/
theorem C6_join_create_error_paths (c : Nat) (rn : Str) (s : ServerState) (cl : Client)
    (hlk : lookupKey c s.clients = some cl) (hns : ∀ ch ∈ rn, ch ≠ ' ') :
    (lookupKey rn s.rooms = none →
      handleCommand ("/join ".data ++ rn) c s = (s, [(c, roomNotFound rn)])) ∧
    (∀ ms, lookupKey rn s.rooms = some ms →
      handleCommand ("/create ".data ++ rn) c s = (s, [(c, roomExistsMsg rn)])) := by
  have hsplitJ : splitSp ("/join ".data ++ rn) = ["/join".data, rn] := by
    have e : ("/join ".data : Str) ++ rn = "/join".data ++ ' ' :: rn := rfl
    rw [e, splitSp_append_space _ (by decide), splitSp_of_no_space hns]
  have hsplitC : splitSp ("/create ".data ++ rn) = ["/create".data, rn] := by
    have e : ("/create ".data : Str) ++ rn = "/create".data ++ ' ' :: rn := rfl
    rw [e, splitSp_append_space _ (by decide), splitSp_of_no_space hns]
  have hne : ¬ (("/create".data : Str) = "/join".data) := by decide
  constructor
  · intro hnone
    simp only [handleCommand, hlk, hsplitJ]
    simp [hnone]
  · intro ms hsome
    simp only [handleCommand, hlk, hsplitC]
    simp [hne, hsome]

/-- Witness for C6: joining the nonexistent "nosuch" and re-creating the
existing "a" from the reachable one-room state. -/
theorem C6_join_create_error_paths_witness :
    handleCommand ("/join ".data ++ "nosuch".data) 1 exRoomA =
      (exRoomA, [(1, roomNotFound "nosuch".data)]) ∧
    handleCommand ("/create ".data ++ "a".data) 1 exRoomA =
      (exRoomA, [(1, roomExistsMsg "a".data)]) := by
  have h1 := C6_join_create_error_paths 1 "nosuch".data exRoomA
    ⟨"A".data, "Anonymous".data, "a".data⟩ (by decide) (by decide)
  have h2 := C6_join_create_error_paths 1 "a".data exRoomA
    ⟨"A".data, "Anonymous".data, "a".data⟩ (by decide) (by decide)
  exact ⟨h1.1 (by decide), h2.2 [1] (by decide)⟩

/-! ### Claim C7 -/

/-- Claim C7 describes fan-out pruning; the code's loop ranges over the
slice it mutates, so pruning a dead member shifts the array under the
running index: with members [1, 2, 3] and the write to 1 failing, member 1
is correctly closed, unregistered and removed from the room, but member 2
never receives the message (it is skipped) while member 3 receives it
twice — delivery to the remaining members does not simply continue. -/
theorem C7_fanout_skips_after_prune :
    (step (.router [1]) exThreeInRoom).2 =
      [(3, renderChat "x".data "9:01AM".data "Anonymous".data "hi".data),
       (3, renderChat "x".data "9:01AM".data "Anonymous".data "hi".data)] ∧
    lookupKey "x".data (step (.router [1]) exThreeInRoom).1.rooms = some [2, 3] ∧
    (lookupKey 2 (step (.router [1]) exThreeInRoom).1.clients).isSome = true ∧
    2 ∈ (step (.router [1]) exThreeInRoom).1.openConns ∧
    lookupKey 1 (step (.router [1]) exThreeInRoom).1.clients = none ∧
    1 ∉ (step (.router [1]) exThreeInRoom).1.openConns := by
  decide

/-! ### Claim C8 -/

/-- Claim C8, amended: the `broadcast` channel is allocated with no buffer,
so a send on it can never complete without the router simultaneously
receiving: producers wait on the router (and on each other through it) at
every publish; the queue between producers and the router is a rendezvous,
not an unbounded buffer. -/
theorem C8_send_always_blocks (buffered : Nat) :
    sendCompletesImmediately broadcastChanCapacity buffered = false := by
  simp [sendCompletesImmediately, broadcastChanCapacity]

/-- Counterexample to C8 as stated: already the very first enqueue, with
nothing buffered, cannot complete without a waiting receiver. -/
theorem C8_counter_unbuffered :
    sendCompletesImmediately broadcastChanCapacity 0 = false := by
  decide

/-! ### Claim C9 -/

/-- Claim C9, amended: banning is idempotent in every state where the
target session's memberships are coherent — it sits in a member list exactly
when that list belongs to the room named by its nonempty `room` field, room
names are unique, and its room's member list is duplicate-free (all of
which hold in every reachable state with no empty-named room).  Then a
second `banUser` leaves the ban list, registry, room directory and every
session's current room — indeed the whole state — exactly as after the
first. -/
theorem C9_ban_idempotent_coherent (c : Nat) (s : ServerState) (cl : Client)
    (hlk : lookupKey c s.clients = some cl)
    (hco : ∀ p ∈ s.rooms, (c ∈ p.2 ↔ (p.1 = cl.room ∧ cl.room ≠ [])))
    (hndr : (s.rooms.map Prod.fst).Nodup)
    (hndm : ∀ ms, lookupKey cl.room s.rooms = some ms → ms.Nodup) :
    (banUser c (banUser c s).1).1 = (banUser c s).1 := by
  have hmemban : cl.addr ∈ insertAddr cl.addr s.bannedUsers := mem_insertAddr.mpr (Or.inl rfl)
  rcases hfind : findRoomOf c s.rooms with _ | pr
  · have h1 : banUser c s = ({ s with bannedUsers := insertAddr cl.addr s.bannedUsers }, []) := by
      simp only [banUser, hlk, kickUser, hfind]
    rw [h1]
    simp only [banUser, hlk, kickUser, hfind, insertAddr_of_mem hmemban]
  · obtain ⟨r0, ms0⟩ := pr
    obtain ⟨hmem, hcm⟩ := findRoomOf_eq_some hfind
    have hr0 : r0 = cl.room ∧ cl.room ≠ [] := (hco _ hmem).mp hcm
    have hlkr : lookupKey cl.room s.rooms = some ms0 := by
      rw [← hr0.1]
      exact mem_lookupKey hmem hndr
    have hnd0 : ms0.Nodup := hndm ms0 hlkr
    have h1 : banUser c s =
        ({ s with
           bannedUsers := insertAddr cl.addr s.bannedUsers
           rooms := mapSet cl.room (removeClient ms0 c) s.rooms
           clients := mapSet c { cl with room := [] } s.clients }, [(c, kickedMsg)]) := by
      simp only [banUser, hlk, kickUser, hfind, hr0.1]
    have hfind2 : findRoomOf c (mapSet cl.room (removeClient ms0 c) s.rooms) = none := by
      rw [findRoomOf_eq_none]
      intro p hp
      rcases (mem_mapSet_strong hndr).mp hp with rfl | ⟨hpl, hpk⟩
      · exact not_mem_removeClient hnd0
      · intro hcp
        exact hpk ((hco _ hpl).mp hcp).1
    rw [h1]
    simp only [banUser, lookupKey_mapSet_self, kickUser, hfind2, insertAddr_of_mem hmemban]

/-- Witness for C9: banning session 2 twice in the reachable two-member
room leaves the state of the first ban. -/
theorem C9_ban_idempotent_coherent_witness :
    (banUser 2 (banUser 2 exTwoInRoom).1).1 = (banUser 2 exTwoInRoom).1 :=
  C9_ban_idempotent_coherent 2 exTwoInRoom ⟨"B".data, "Anonymous".data, "x".data⟩
    (by decide) (by decide) (by decide) (by decide)

/-- Counterexample to C9 as stated: in the reachable state `exIncoherent`
(session 2 holds a stale membership in the empty-named room while its
`room` field says "x"), banning session 2 twice does not leave the room
directory as one ban does — the second kick removes the stale membership
and overwrites a different room's member list. -/
theorem C9_counter_ban_twice :
    (banUser 2 (banUser 2 exIncoherent).1).1 ≠ (banUser 2 exIncoherent).1 := by
  decide

/-! ### Claim C10 -/

/-- Claim C10: for a /join or /create line, the room name acted on is
exactly the second space-separated token: the command behaves identically
to the two-token line made of the command word and that token (all further
tokens are ignored), and that token can never contain a space, so no room
whose name contains a space can be joined or created. -/
theorem C10_room_name_second_token (msg : Str) (c : Nat) (s : ServerState)
    (hcmd : (splitSp msg).headD [] = "/join".data ∨ (splitSp msg).headD [] = "/create".data)
    (hlen : 2 ≤ (splitSp msg).length) :
    handleCommand msg c s =
      handleCommand ((splitSp msg).headD [] ++ ' ' :: (splitSp msg).getD 1 []) c s ∧
    ∀ ch ∈ (splitSp msg).getD 1 [], ch ≠ ' ' := by
  obtain ⟨p0, p1, rest, hparts⟩ : ∃ p0 p1 rest, splitSp msg = p0 :: p1 :: rest := by
    rcases hp : splitSp msg with _ | ⟨a, tl⟩
    · exact absurd hp (splitSp_ne_nil msg)
    · rcases tl with _ | ⟨b, r⟩
      · rw [hp] at hlen
        simp at hlen
      · exact ⟨a, b, r, rfl⟩
  have hp0 : ' ' ∉ p0 := splitSp_no_space (by rw [hparts]; exact List.mem_cons_self _ _)
  have hp1 : ' ' ∉ p1 :=
    splitSp_no_space (by rw [hparts]; exact List.mem_cons_of_mem _ (List.mem_cons_self _ _))
  have hp1' : ∀ ch ∈ p1, ch ≠ ' ' := fun ch hch => by
    rintro rfl
    exact hp1 hch
  have hsplit2 : splitSp (p0 ++ ' ' :: p1) = [p0, p1] := by
    rw [splitSp_append_space _ (fun ch hch => by rintro rfl; exact hp0 hch),
      splitSp_of_no_space hp1']
  refine ⟨?_, by simpa [hparts] using hp1'⟩
  rw [hparts]
  simp only [List.headD_cons, List.getD_cons_succ, List.getD_cons_zero]
  rcases hclk : lookupKey c s.clients with _ | cl
  · simp only [handleCommand, hclk]
  · rcases hcmd with hcmd | hcmd <;>
      rw [hparts] at hcmd <;>
      simp only [List.headD_cons] at hcmd <;>
      subst hcmd <;>
      simp only [handleCommand, hclk, hparts, hsplit2, List.headD_cons, List.length_cons,
        List.getD_cons_succ, List.getD_cons_zero] <;>
      simp

/-- Witness for C10: "/join a b" behaves exactly like "/join a" and, in the
reachable state where room "a" exists, succeeds with the joined reply and
no error. -/
theorem C10_room_name_second_token_witness :
    (handleCommand "/join a b".data 1 exRoomA =
      handleCommand ("/join".data ++ ' ' :: "a".data) 1 exRoomA ∧
      ∀ ch ∈ ("a".data : Str), ch ≠ ' ') ∧
    (handleCommand "/join a b".data 1 exRoomA).2 = [(1, joinedMsg "a".data)] := by
  have h := C10_room_name_second_token "/join a b".data 1 exRoomA
    (Or.inl (by decide)) (by decide)
  exact ⟨⟨h.1, h.2⟩, by decide⟩


theorem lookupKey_mapSet {α β : Type} [DecidableEq α] (k d : α) (v : β) (l : List (α × β)) :
    lookupKey d (mapSet k v l) = if d = k then some v else lookupKey d l := by
  by_cases h : d = k
  · subst h
    simp [lookupKey_mapSet_self]
  · simp [h, lookupKey_mapSet_ne v l h]

theorem mapSet_mapSet {α β : Type} [DecidableEq α] (k : α) (v1 v2 : β) (l : List (α × β)) :
    mapSet k v2 (mapSet k v1 l) = mapSet k v2 l := by
  induction l with
  | nil => simp [mapSet]
  | cons hd tl ih =>
    obtain ⟨k0, v0⟩ := hd
    by_cases h0 : k0 = k
    · simp [mapSet, h0]
    · simp [mapSet, h0, ih]

theorem removeClient_append_singleton {l : List Nat} {c : Nat} (h : c ∉ l) :
    removeClient (l ++ [c]) c = l := by
  induction l with
  | nil => simp [removeClient]
  | cons hd tl ih =>
    simp only [List.mem_cons] at h
    push_neg at h
    simp [removeClient, Ne.symm h.1, ih h.2]

theorem openAddrUsed_false {a : Str} {s : ServerState} (h : openAddrUsed a s = false) :
    ∀ d cld, lookupKey d s.clients = some cld → d ∈ s.openConns → cld.addr ≠ a := by
  intro d cld hlk hop
  have hmem : (d, cld) ∈ s.clients := lookupKey_mem hlk
  have := List.any_eq_false.mp h _ hmem
  simp only [decide_eq_true_eq] at this
  intro ha
  exact this ⟨hop, ha⟩

/-- The inductive invariant of the server state (maintained along every
trace whose room directory never acquires an empty-named room): unique
registry keys, room names and member lists; membership coherent with the
sessions' `room` fields in both directions; open connections registered and
with pairwise distinct addresses; registered-but-closed connections only
for banned addresses; and — the property claim C2 is about — sessions with
banned addresses roomless and member of no room. -/
structure Inv (s : ServerState) : Prop where
  ndClients : (s.clients.map Prod.fst).Nodup
  ndRooms : (s.rooms.map Prod.fst).Nodup
  ndMembers : ∀ r ms, lookupKey r s.rooms = some ms → ms.Nodup
  coher : ∀ r ms c, lookupKey r s.rooms = some ms → c ∈ ms →
    ∃ cl, lookupKey c s.clients = some cl ∧ cl.room = r
  regMem : ∀ c cl, lookupKey c s.clients = some cl → cl.room ≠ [] →
    ∃ ms, lookupKey cl.room s.rooms = some ms ∧ c ∈ ms
  ndOpen : s.openConns.Nodup
  openReg : ∀ c, c ∈ s.openConns → (lookupKey c s.clients).isSome = true
  staleBan : ∀ c cl, lookupKey c s.clients = some cl → c ∉ s.openConns →
    cl.addr ∈ s.bannedUsers
  addrUniq : ∀ c1 c2 cl1 cl2, c1 ∈ s.openConns → c2 ∈ s.openConns →
    lookupKey c1 s.clients = some cl1 → lookupKey c2 s.clients = some cl2 →
    cl1.addr = cl2.addr → c1 = c2
  banRoomless : ∀ c cl, lookupKey c s.clients = some cl → cl.addr ∈ s.bannedUsers →
    cl.room = [] ∧ ∀ r ms, lookupKey r s.rooms = some ms → c ∉ ms

theorem Inv_init : Inv initState := by
  refine ⟨?_, ?_, ?_, ?_, ?_, ?_, ?_, ?_, ?_, ?_⟩ <;>
    simp [initState, lookupKey]

theorem connect_inv (c : Nat) (a : Str) (s : ServerState) (hInv : Inv s) :
    Inv (connectConn c a s).1 := by
  unfold connectConn
  by_cases hg : c ∈ s.openConns ∨ (lookupKey c s.clients).isSome = true ∨
      openAddrUsed a s = true
  · rw [if_pos hg]
    exact hInv
  · rw [if_neg hg]
    push_neg at hg
    obtain ⟨hg1, hg2, hg3⟩ := hg
    have hg2' : lookupKey c s.clients = none := by
      rcases h : lookupKey c s.clients with _ | v
      · rfl
      · rw [h] at hg2
        simp at hg2
    have hg3' : openAddrUsed a s = false := by
      simpa using hg3
    have hnotin : ∀ r ms, lookupKey r s.rooms = some ms → c ∉ ms := by
      intro r ms hr hc
      obtain ⟨cl, hcl, _⟩ := hInv.coher r ms c hr hc
      rw [hg2'] at hcl
      exact Option.noConfusion hcl
    have hkeys : c ∉ s.clients.map Prod.fst := lookupKey_eq_none.mp hg2'
    have hlkS : ∀ d, lookupKey d (mapSet c ⟨a, "Anonymous".data, []⟩ s.clients) =
        if d = c then some ⟨a, "Anonymous".data, []⟩ else lookupKey d s.clients :=
      fun d => lookupKey_mapSet c d _ s.clients
    by_cases hb : a ∈ s.bannedUsers
    · rw [if_pos hb]
      refine ⟨?_, hInv.ndRooms, hInv.ndMembers, ?_, ?_, ?_, ?_, ?_, ?_, ?_⟩
      · exact nodup_keys_mapSet hInv.ndClients
      · intro r ms d hr hd
        have hdc : d ≠ c := fun h => hnotin r ms hr (h ▸ hd)
        obtain ⟨cl, hcl, hclr⟩ := hInv.coher r ms d hr hd
        exact ⟨cl, by rw [hlkS d, if_neg hdc]; exact hcl, hclr⟩
      · intro d cl hd hroom
        rw [hlkS d] at hd
        by_cases hdc : d = c
        · rw [if_pos hdc] at hd
          obtain rfl := Option.some.inj hd
          simp at hroom
        · rw [if_neg hdc] at hd
          exact hInv.regMem d cl hd hroom
      · show (removeClient (s.openConns ++ [c]) c).Nodup
        rw [removeClient_append_singleton hg1]
        exact hInv.ndOpen
      · intro d hd
        rw [removeClient_append_singleton hg1] at hd
        rw [hlkS d]
        split
        · simp
        · exact hInv.openReg d hd
      · intro d cl hd hdo
        rw [removeClient_append_singleton hg1] at hdo
        rw [hlkS d] at hd
        by_cases hdc : d = c
        · rw [if_pos hdc] at hd
          obtain rfl := Option.some.inj hd
          exact hb
        · rw [if_neg hdc] at hd
          exact hInv.staleBan d cl hd hdo
      · intro c1 c2 cl1 cl2 h1 h2 hl1 hl2 ha
        rw [removeClient_append_singleton hg1] at h1 h2
        rw [hlkS c1] at hl1
        rw [hlkS c2] at hl2
        have hc1 : c1 ≠ c := fun h => hg1 (h ▸ h1)
        have hc2 : c2 ≠ c := fun h => hg1 (h ▸ h2)
        rw [if_neg hc1] at hl1
        rw [if_neg hc2] at hl2
        exact hInv.addrUniq c1 c2 cl1 cl2 h1 h2 hl1 hl2 ha
      · intro d cl hd hdb
        rw [hlkS d] at hd
        by_cases hdc : d = c
        · rw [if_pos hdc] at hd
          obtain rfl := Option.some.inj hd
          exact ⟨rfl, fun r ms hr => hdc ▸ hnotin r ms hr⟩
        · rw [if_neg hdc] at hd
          exact hInv.banRoomless d cl hd hdb
    · rw [if_neg hb]
      refine ⟨?_, hInv.ndRooms, hInv.ndMembers, ?_, ?_, ?_, ?_, ?_, ?_, ?_⟩
      · exact nodup_keys_mapSet hInv.ndClients
      · intro r ms d hr hd
        have hdc : d ≠ c := fun h => hnotin r ms hr (h ▸ hd)
        obtain ⟨cl, hcl, hclr⟩ := hInv.coher r ms d hr hd
        exact ⟨cl, by rw [hlkS d, if_neg hdc]; exact hcl, hclr⟩
      · intro d cl hd hroom
        rw [hlkS d] at hd
        by_cases hdc : d = c
        · rw [if_pos hdc] at hd
          obtain rfl := Option.some.inj hd
          simp at hroom
        · rw [if_neg hdc] at hd
          exact hInv.regMem d cl hd hroom
      · show (s.openConns ++ [c]).Nodup
        refine List.nodup_append.mpr ⟨hInv.ndOpen, List.nodup_singleton c, ?_⟩
        intro x hx hxc
        rcases List.mem_singleton.mp hxc with rfl
        exact hg1 hx
      · intro d hd
        rw [hlkS d]
        split
        · simp
        · rename_i hdc
          rcases List.mem_append.mp hd with hd | hd
          · exact hInv.openReg d hd
          · exact absurd (List.mem_singleton.mp hd) hdc
      · intro d cl hd hdo
        rw [hlkS d] at hd
        by_cases hdc : d = c
        · exact absurd (List.mem_append.mpr (Or.inr (by simp [hdc]))) hdo
        · rw [if_neg hdc] at hd
          exact hInv.staleBan d cl hd
            (fun h => hdo (List.mem_append.mpr (Or.inl h)))
      · intro c1 c2 cl1 cl2 h1 h2 hl1 hl2 ha
        rw [hlkS c1] at hl1
        rw [hlkS c2] at hl2
        by_cases hc1 : c1 = c <;> by_cases hc2 : c2 = c
        · rw [hc1, hc2]
        · rw [if_pos hc1] at hl1
          rw [if_neg hc2] at hl2
          obtain rfl := Option.some.inj hl1
          rcases List.mem_append.mp h2 with h2 | h2
          · exact absurd ha.symm (openAddrUsed_false hg3' c2 cl2 hl2 h2)
          · exact absurd (List.mem_singleton.mp h2) hc2
        · rw [if_neg hc1] at hl1
          rw [if_pos hc2] at hl2
          obtain rfl := Option.some.inj hl2
          rcases List.mem_append.mp h1 with h1 | h1
          · exact absurd ha (openAddrUsed_false hg3' c1 cl1 hl1 h1)
          · exact absurd (List.mem_singleton.mp h1) hc1
        · rw [if_neg hc1] at hl1
          rw [if_neg hc2] at hl2
          rcases List.mem_append.mp h1 with h1 | h1
          · rcases List.mem_append.mp h2 with h2 | h2
            · exact hInv.addrUniq c1 c2 cl1 cl2 h1 h2 hl1 hl2 ha
            · exact absurd (List.mem_singleton.mp h2) hc2
          · exact absurd (List.mem_singleton.mp h1) hc1
      · intro d cl hd hdb
        rw [hlkS d] at hd
        by_cases hdc : d = c
        · rw [if_pos hdc] at hd
          obtain rfl := Option.some.inj hd
          exact absurd hdb hb
        · rw [if_neg hdc] at hd
          exact hInv.banRoomless d cl hd hdb


/-- Preservation of the invariant by `kickUser`, run on the state with a
possibly enlarged ban list (so that it covers both the admin kick, with the
ban list unchanged, and `banUser`, which first inserts the target's
address). -/
theorem kickBan_inv (c : Nat) (s : ServerState) (B2 : List Str) (hInv : Inv s)
    (hBsup : ∀ x ∈ s.bannedUsers, x ∈ B2)
    (hBnew : ∀ x ∈ B2, x ∈ s.bannedUsers ∨
      ∃ cl, lookupKey c s.clients = some cl ∧ x = cl.addr) :
    Inv (kickUser c { s with bannedUsers := B2 }).1 := by
  have haddr : ∀ d cld, d ≠ c → lookupKey d s.clients = some cld → cld.addr ∈ B2 →
      cld.addr ∈ s.bannedUsers := by
    intro d cld hdc hd hdb
    rcases hBnew _ hdb with h | ⟨cl, hclk, hx⟩
    · exact h
    · by_cases hdo : d ∈ s.openConns
      · by_cases hco : c ∈ s.openConns
        · exact absurd (hInv.addrUniq d c cld cl hdo hco hd hclk hx) hdc
        · exact hx ▸ hInv.staleBan c cl hclk hco
      · exact hInv.staleBan d cld hd hdo
  rcases hclk : lookupKey c s.clients with _ | cl
  · rcases hfind : findRoomOf c s.rooms with _ | pr
    · have heq : kickUser c { s with bannedUsers := B2 } =
          ({ s with bannedUsers := B2 }, []) := by
        simp only [kickUser, hfind]
      rw [heq]
      refine ⟨hInv.ndClients, hInv.ndRooms, hInv.ndMembers, hInv.coher, hInv.regMem,
        hInv.ndOpen, hInv.openReg, ?_, hInv.addrUniq, ?_⟩
      · intro d cld hd hdo
        exact hBsup _ (hInv.staleBan d cld hd hdo)
      · intro d cld hd hdb
        have hdc : d ≠ c := fun h => by
          rw [h, hclk] at hd
          exact Option.noConfusion hd
        exact hInv.banRoomless d cld hd (haddr d cld hdc hd hdb)
    · obtain ⟨r0, ms0⟩ := pr
      have heq : kickUser c { s with bannedUsers := B2 } =
          ({ s with bannedUsers := B2 }, []) := by
        simp only [kickUser, hfind, hclk]
      rw [heq]
      refine ⟨hInv.ndClients, hInv.ndRooms, hInv.ndMembers, hInv.coher, hInv.regMem,
        hInv.ndOpen, hInv.openReg, ?_, hInv.addrUniq, ?_⟩
      · intro d cld hd hdo
        exact hBsup _ (hInv.staleBan d cld hd hdo)
      · intro d cld hd hdb
        have hdc : d ≠ c := fun h => by
          rw [h, hclk] at hd
          exact Option.noConfusion hd
        exact hInv.banRoomless d cld hd (haddr d cld hdc hd hdb)
  · rcases hfind : findRoomOf c s.rooms with _ | pr
    · -- the session is in no member list; its room field must be empty
      have hnotin : ∀ r ms, lookupKey r s.rooms = some ms → c ∉ ms := by
        intro r ms hr
        exact (findRoomOf_eq_none.mp hfind) (r, ms) (lookupKey_mem hr)
      have hcr : cl.room = [] := by
        by_contra hne
        obtain ⟨ms, hms, hcm⟩ := hInv.regMem c cl hclk hne
        exact hnotin _ _ hms hcm
      have heq : kickUser c { s with bannedUsers := B2 } =
          ({ s with bannedUsers := B2 }, []) := by
        simp only [kickUser, hfind]
      rw [heq]
      refine ⟨hInv.ndClients, hInv.ndRooms, hInv.ndMembers, hInv.coher, hInv.regMem,
        hInv.ndOpen, hInv.openReg, ?_, hInv.addrUniq, ?_⟩
      · intro d cld hd hdo
        exact hBsup _ (hInv.staleBan d cld hd hdo)
      · intro d cld hd hdb
        by_cases hdc : d = c
        · subst hdc
          rw [hclk] at hd
          obtain rfl := Option.some.inj hd
          exact ⟨hcr, hnotin⟩
        · exact hInv.banRoomless d cld hd (haddr d cld hdc hd hdb)
    · obtain ⟨r0, ms0⟩ := pr
      obtain ⟨hmem, hcm⟩ := findRoomOf_eq_some hfind
      have hlkr : lookupKey r0 s.rooms = some ms0 := mem_lookupKey hmem hInv.ndRooms
      obtain ⟨cl', hcl', hclr'⟩ := hInv.coher r0 ms0 c hlkr hcm
      rw [hclk] at hcl'
      obtain rfl := Option.some.inj hcl'
      -- now hclr' : cl.room = r0 for the registry record cl of c
      have hnd0 : ms0.Nodup := hInv.ndMembers r0 ms0 hlkr
      have hlkr' : lookupKey cl.room s.rooms = some ms0 := by
        rw [hclr']
        exact hlkr
      have heq : kickUser c { s with bannedUsers := B2 } =
          ({ s with
             bannedUsers := B2
             rooms := mapSet cl.room (removeClient ms0 c) s.rooms
             clients := mapSet c { cl with room := [] } s.clients }, [(c, kickedMsg)]) := by
        simp only [kickUser, hfind, hclk]
      rw [heq]
      have hlkS : ∀ d, lookupKey d (mapSet c { cl with room := [] } s.clients) =
          if d = c then some { cl with room := [] } else lookupKey d s.clients :=
        fun d => lookupKey_mapSet c d _ s.clients
      have hlkR : ∀ r, lookupKey r (mapSet cl.room (removeClient ms0 c) s.rooms) =
          if r = cl.room then some (removeClient ms0 c) else lookupKey r s.rooms :=
        fun r => lookupKey_mapSet cl.room r _ s.rooms
      have hnotinPost : ∀ r ms,
          lookupKey r (mapSet cl.room (removeClient ms0 c) s.rooms) = some ms → c ∉ ms := by
        intro r ms hr
        rw [hlkR r] at hr
        split at hr
        · obtain rfl := Option.some.inj hr
          exact not_mem_removeClient hnd0
        · rename_i hrne
          intro hcmem
          obtain ⟨cl2, hcl2, hcl2r⟩ := hInv.coher r ms c hr hcmem
          rw [hclk] at hcl2
          obtain rfl := Option.some.inj hcl2
          exact hrne hcl2r.symm
      refine ⟨nodup_keys_mapSet hInv.ndClients, nodup_keys_mapSet hInv.ndRooms,
        ?_, ?_, ?_, hInv.ndOpen, ?_, ?_, ?_, ?_⟩
      · intro r ms hr
        rw [hlkR r] at hr
        split at hr
        · obtain rfl := Option.some.inj hr
          exact (removeClient_sublist ms0 c).nodup hnd0
        · exact hInv.ndMembers r ms hr
      · intro r ms d hr hd
        rw [hlkR r] at hr
        split at hr
        · rename_i hreq
          obtain rfl := Option.some.inj hr
          have hdne : d ≠ c := fun h => not_mem_removeClient hnd0 (h ▸ hd)
          obtain ⟨cld, hcld, hcldr⟩ :=
            hInv.coher _ ms0 d hlkr' (mem_removeClient hd)
          refine ⟨cld, ?_, hreq ▸ hcldr⟩
          rw [hlkS d, if_neg hdne]
          exact hcld
        · rename_i hrne
          obtain ⟨cld, hcld, hcldr⟩ := hInv.coher r ms d hr hd
          have hdne : d ≠ c := by
            rintro rfl
            rw [hclk] at hcld
            obtain rfl := Option.some.inj hcld
            exact hrne hcldr.symm
          refine ⟨cld, ?_, hcldr⟩
          rw [hlkS d, if_neg hdne]
          exact hcld
      · intro d cld hd hroom
        rw [hlkS d] at hd
        split at hd
        · obtain rfl := Option.some.inj hd
          simp at hroom
        · rename_i hdne
          obtain ⟨ms, hms, hdm⟩ := hInv.regMem d cld hd hroom
          rw [hlkR cld.room]
          split
          · rename_i hre
            rw [hre, hlkr'] at hms
            obtain rfl := Option.some.inj hms
            exact ⟨removeClient ms0 c, rfl, (mem_removeClient_ne hdne).mpr hdm⟩
          · exact ⟨ms, hms, hdm⟩
      · intro d hd
        rw [hlkS d]
        split
        · simp
        · exact hInv.openReg d hd
      · intro d cld hd hdo
        rw [hlkS d] at hd
        split at hd
        · rename_i hde
          obtain rfl := Option.some.inj hd
          rw [hde] at hdo
          exact hBsup _ (hInv.staleBan c cl hclk hdo)
        · exact hBsup _ (hInv.staleBan d cld hd hdo)
      · intro c1 c2 cl1 cl2 h1 h2 hl1 hl2 ha
        rw [hlkS c1] at hl1
        rw [hlkS c2] at hl2
        by_cases e1 : c1 = c <;> by_cases e2 : c2 = c
        · rw [e1, e2]
        · rw [if_pos e1] at hl1
          rw [if_neg e2] at hl2
          obtain rfl := Option.some.inj hl1
          exact hInv.addrUniq c1 c2 cl cl2 h1 h2 (e1 ▸ hclk) hl2 ha
        · rw [if_neg e1] at hl1
          rw [if_pos e2] at hl2
          obtain rfl := Option.some.inj hl2
          exact hInv.addrUniq c1 c2 cl1 cl h1 h2 hl1 (e2 ▸ hclk) ha
        · rw [if_neg e1] at hl1
          rw [if_neg e2] at hl2
          exact hInv.addrUniq c1 c2 cl1 cl2 h1 h2 hl1 hl2 ha
      · intro d cld hd hdb
        rw [hlkS d] at hd
        split at hd
        · rename_i hde
          obtain rfl := Option.some.inj hd
          exact ⟨rfl, hde ▸ hnotinPost⟩
        · rename_i hdne
          have hfree := hInv.banRoomless d cld hd (haddr d cld hdne hd hdb)
          refine ⟨hfree.1, ?_⟩
          intro r ms hr
          rw [hlkR r] at hr
          split at hr
          · obtain rfl := Option.some.inj hr
            intro hdm
            exact hfree.2 _ ms0 hlkr' (mem_removeClient hdm)
          · exact hfree.2 r ms hr

theorem kick_inv (c : Nat) (s : ServerState) (hInv : Inv s) : Inv (kickUser c s).1 :=
  kickBan_inv c s s.bannedUsers hInv (fun _ hx => hx) (fun _ hx => Or.inl hx)

theorem ban_inv (c : Nat) (s : ServerState) (hInv : Inv s) : Inv (banUser c s).1 := by
  rcases hclk : lookupKey c s.clients with _ | cl
  · have heq : banUser c s = (s, []) := by simp only [banUser, hclk]
    rw [heq]
    exact hInv
  · have heq : banUser c s =
        kickUser c { s with bannedUsers := insertAddr cl.addr s.bannedUsers } := by
      simp only [banUser, hclk]
    rw [heq]
    exact kickBan_inv c s (insertAddr cl.addr s.bannedUsers) hInv
      (fun x hx => mem_insertAddr.mpr (Or.inr hx))
      (fun x hx => by
        rcases mem_insertAddr.mp hx with h | h
        · exact Or.inr ⟨cl, hclk, h⟩
        · exact Or.inl h)


theorem disconnect_inv (c : Nat) (s : ServerState) (hInv : Inv s)
    (hno : [] ∉ s.rooms.map Prod.fst) : Inv (disconnectConn c s).1 := by
  by_cases hopen : c ∈ s.openConns
  · rcases hclk : lookupKey c s.clients with _ | cl
    · exact absurd (hInv.openReg c hopen) (by rw [hclk]; simp)
    · have hlkE : ∀ d, lookupKey d (mapErase c s.clients) =
          if d = c then none else lookupKey d s.clients := by
        intro d
        by_cases hdc : d = c
        · rw [if_pos hdc, hdc]
          exact lookupKey_mapErase_self hInv.ndClients
        · rw [if_neg hdc]
          exact lookupKey_mapErase_ne s.clients hdc
      have hremopen : ∀ d, d ∈ removeClient s.openConns c ↔ d ∈ s.openConns ∧ d ≠ c :=
        fun d => mem_removeClient_iff hInv.ndOpen
      by_cases hcr : cl.room = []
      · have hnotin : ∀ r ms, lookupKey r s.rooms = some ms → c ∉ ms := by
          intro r ms hr hc
          obtain ⟨cl2, hcl2, hcl2r⟩ := hInv.coher r ms c hr hc
          rw [hclk] at hcl2
          obtain rfl := Option.some.inj hcl2
          rw [hcr] at hcl2r
          exact hno (hcl2r ▸ lookupKey_isSome.mp (by rw [hr]; rfl))
        have heq : disconnectConn c s =
            ({ s with
               clients := mapErase c s.clients
               openConns := removeClient s.openConns c }, []) := by
          simp only [disconnectConn, if_pos hopen, hclk, hcr]
          simp
        rw [heq]
        refine ⟨(keys_mapErase_sublist c s.clients).nodup hInv.ndClients, hInv.ndRooms,
          hInv.ndMembers, ?_, ?_, (removeClient_sublist s.openConns c).nodup hInv.ndOpen,
          ?_, ?_, ?_, ?_⟩
        · intro r ms d hr hd
          have hdc : d ≠ c := fun h => hnotin r ms hr (h ▸ hd)
          obtain ⟨cld, hcld, hcldr⟩ := hInv.coher r ms d hr hd
          refine ⟨cld, ?_, hcldr⟩
          rw [hlkE d, if_neg hdc]
          exact hcld
        · intro d cld hd hroom
          rw [hlkE d] at hd
          split at hd
          · exact Option.noConfusion hd
          · exact hInv.regMem d cld hd hroom
        · intro d hd
          obtain ⟨hd1, hd2⟩ := (hremopen d).mp hd
          rw [hlkE d, if_neg hd2]
          exact hInv.openReg d hd1
        · intro d cld hd hdo
          rw [hlkE d] at hd
          split at hd
          · exact Option.noConfusion hd
          · rename_i hdc
            refine hInv.staleBan d cld hd (fun hdo' => hdo ((hremopen d).mpr ⟨hdo', hdc⟩))
        · intro c1 c2 cl1 cl2 h1 h2 hl1 hl2 ha
          obtain ⟨h1', h1c⟩ := (hremopen c1).mp h1
          obtain ⟨h2', h2c⟩ := (hremopen c2).mp h2
          rw [hlkE c1, if_neg h1c] at hl1
          rw [hlkE c2, if_neg h2c] at hl2
          exact hInv.addrUniq c1 c2 cl1 cl2 h1' h2' hl1 hl2 ha
        · intro d cld hd hdb
          rw [hlkE d] at hd
          split at hd
          · exact Option.noConfusion hd
          · exact hInv.banRoomless d cld hd hdb
      · obtain ⟨mso, hmso, hcm⟩ := hInv.regMem c cl hclk hcr
        have hnd0 : mso.Nodup := hInv.ndMembers _ mso hmso
        have heq : disconnectConn c s =
            ({ s with
               rooms := mapSet cl.room (removeClient mso c) s.rooms
               queue := s.queue ++ [leaveNotice cl.room cl.username]
               clients := mapErase c s.clients
               openConns := removeClient s.openConns c }, []) := by
          simp only [disconnectConn, if_pos hopen, hclk, hcr, hmso]
          simp [hcr, hmso]
        rw [heq]
        have hlkR : ∀ r, lookupKey r (mapSet cl.room (removeClient mso c) s.rooms) =
            if r = cl.room then some (removeClient mso c) else lookupKey r s.rooms :=
          fun r => lookupKey_mapSet cl.room r _ s.rooms
        refine ⟨(keys_mapErase_sublist c s.clients).nodup hInv.ndClients,
          nodup_keys_mapSet hInv.ndRooms, ?_, ?_, ?_,
          (removeClient_sublist s.openConns c).nodup hInv.ndOpen, ?_, ?_, ?_, ?_⟩
        · intro r ms hr
          rw [hlkR r] at hr
          split at hr
          · obtain rfl := Option.some.inj hr
            exact (removeClient_sublist mso c).nodup hnd0
          · exact hInv.ndMembers r ms hr
        · intro r ms d hr hd
          rw [hlkR r] at hr
          split at hr
          · rename_i hre
            obtain rfl := Option.some.inj hr
            have hdc : d ≠ c := fun h => not_mem_removeClient hnd0 (h ▸ hd)
            obtain ⟨cld, hcld, hcldr⟩ := hInv.coher _ mso d hmso (mem_removeClient hd)
            refine ⟨cld, ?_, hre ▸ hcldr⟩
            rw [hlkE d, if_neg hdc]
            exact hcld
          · rename_i hrne
            obtain ⟨cld, hcld, hcldr⟩ := hInv.coher r ms d hr hd
            have hdc : d ≠ c := by
              rintro rfl
              rw [hclk] at hcld
              obtain rfl := Option.some.inj hcld
              exact hrne hcldr.symm
            refine ⟨cld, ?_, hcldr⟩
            rw [hlkE d, if_neg hdc]
            exact hcld
        · intro d cld hd hroom
          rw [hlkE d] at hd
          split at hd
          · exact Option.noConfusion hd
          · rename_i hdc
            obtain ⟨ms, hms, hdm⟩ := hInv.regMem d cld hd hroom
            rw [hlkR cld.room]
            split
            · rename_i hre
              rw [hre, hmso] at hms
              obtain rfl := Option.some.inj hms
              exact ⟨removeClient mso c, rfl, (mem_removeClient_ne hdc).mpr hdm⟩
            · exact ⟨ms, hms, hdm⟩
        · intro d hd
          obtain ⟨hd1, hd2⟩ := (hremopen d).mp hd
          rw [hlkE d, if_neg hd2]
          exact hInv.openReg d hd1
        · intro d cld hd hdo
          rw [hlkE d] at hd
          split at hd
          · exact Option.noConfusion hd
          · rename_i hdc
            exact hInv.staleBan d cld hd (fun hdo' => hdo ((hremopen d).mpr ⟨hdo', hdc⟩))
        · intro c1 c2 cl1 cl2 h1 h2 hl1 hl2 ha
          obtain ⟨h1', h1c⟩ := (hremopen c1).mp h1
          obtain ⟨h2', h2c⟩ := (hremopen c2).mp h2
          rw [hlkE c1, if_neg h1c] at hl1
          rw [hlkE c2, if_neg h2c] at hl2
          exact hInv.addrUniq c1 c2 cl1 cl2 h1' h2' hl1 hl2 ha
        · intro d cld hd hdb
          rw [hlkE d] at hd
          split at hd
          · exact Option.noConfusion hd
          · have hfree := hInv.banRoomless d cld hd hdb
            refine ⟨hfree.1, ?_⟩
            intro r ms hr
            rw [hlkR r] at hr
            split at hr
            · obtain rfl := Option.some.inj hr
              intro hdm
              exact hfree.2 _ mso hmso (mem_removeClient hdm)
            · exact hfree.2 r ms hr
  · have heq : disconnectConn c s = (s, []) := by
      simp only [disconnectConn, if_neg hopen]
    rw [heq]
    exact hInv


theorem router_inv (dead : List Nat) (msg : Str) (s : ServerState) (hInv : Inv s) :
    Inv (handleBroadcastMsg dead msg s).1 := by
  obtain ⟨E, hE, hcl, hop, hrooms, hban, hqueue, _⟩ := handleBroadcastMsg_char dead msg s
  have hndm : ((lookupKey (parseRoom msg) s.rooms).getD []).Nodup := by
    rcases hl : lookupKey (parseRoom msg) s.rooms with _ | ms
    · simp
    · simpa using hInv.ndMembers (parseRoom msg) ms hl
  have hEm : ∀ x ∈ E, x ∈ (lookupKey (parseRoom msg) s.rooms).getD [] :=
    fun x hx => (hE x hx).1
  have hlkC : ∀ d, lookupKey d (handleBroadcastMsg dead msg s).1.clients =
      if d ∈ E then none else lookupKey d s.clients := by
    intro d
    rw [hcl]
    exact lookupKey_eraseAll hInv.ndClients
  have hOP : ∀ d, d ∈ (handleBroadcastMsg dead msg s).1.openConns ↔
      d ∈ s.openConns ∧ d ∉ E := by
    intro d
    rw [hop]
    exact mem_removeAll hInv.ndOpen
  have hmemsome : (lookupKey (parseRoom msg) s.rooms).isSome = true →
      lookupKey (parseRoom msg) s.rooms =
        some ((lookupKey (parseRoom msg) s.rooms).getD []) := by
    intro h
    rcases hl : lookupKey (parseRoom msg) s.rooms with _ | ms
    · rw [hl] at h
      simp at h
    · simp
  have hnotE : ∀ d cld, lookupKey d s.clients = some cld → cld.room ≠ parseRoom msg →
      d ∉ E := by
    intro d cld hd hne hdE
    have hdm := hEm d hdE
    rcases hl : lookupKey (parseRoom msg) s.rooms with _ | ms
    · rw [hl] at hdm
      simp at hdm
    · rw [hl] at hdm
      simp only [Option.getD_some] at hdm
      obtain ⟨cld2, hcld2, hcld2r⟩ := hInv.coher (parseRoom msg) ms d hl hdm
      rw [hd] at hcld2
      obtain rfl := Option.some.inj hcld2
      exact hne hcld2r
  have hlkR : ∀ r, lookupKey r (handleBroadcastMsg dead msg s).1.rooms =
      if r = parseRoom msg ∧ (lookupKey (parseRoom msg) s.rooms).isSome = true
      then some (removeAll E ((lookupKey (parseRoom msg) s.rooms).getD []))
      else lookupKey r s.rooms := by
    intro r
    rw [hrooms]
    by_cases hsome : (lookupKey (parseRoom msg) s.rooms).isSome = true
    · rw [if_pos hsome, lookupKey_mapSet]
      by_cases hr : r = parseRoom msg
      · simp [hr, hsome]
      · simp [hr, hsome]
    · rw [if_neg hsome]
      simp [hsome]
  refine ⟨?_, ?_, ?_, ?_, ?_, ?_, ?_, ?_, ?_, ?_⟩
  · rw [hcl]
    exact nodup_keys_eraseAll hInv.ndClients
  · rw [hrooms]
    split
    · exact nodup_keys_mapSet hInv.ndRooms
    · exact hInv.ndRooms
  · intro r ms hr
    rw [hlkR r] at hr
    split at hr
    · obtain rfl := Option.some.inj hr
      exact nodup_removeAll hndm
    · exact hInv.ndMembers r ms hr
  · intro r ms d hr hd
    rw [hlkR r] at hr
    split at hr
    · rename_i hcond
      obtain rfl := Option.some.inj hr
      obtain ⟨hdm, hdE⟩ := (mem_removeAll hndm).mp hd
      have hms := hmemsome hcond.2
      obtain ⟨cld, hcld, hcldr⟩ := hInv.coher (parseRoom msg) _ d hms hdm
      refine ⟨cld, ?_, hcond.1 ▸ hcldr⟩
      rw [hlkC d, if_neg hdE]
      exact hcld
    · obtain ⟨cld, hcld, hcldr⟩ := hInv.coher r ms d hr hd
      have hdE : d ∉ E := by
        by_cases hrr : r = parseRoom msg
        · intro hdE
          have hdm := hEm d hdE
          rcases hl : lookupKey (parseRoom msg) s.rooms with _ | ms2
          · rw [hl] at hdm
            simp at hdm
          · rw [← hrr, hr] at hl
            obtain rfl := Option.some.inj hl
            rename_i hcond
            exact hcond ⟨hrr, by rw [← hrr, hr]; rfl⟩
        · exact hnotE d cld hcld (hcldr ▸ hrr)
      refine ⟨cld, ?_, hcldr⟩
      rw [hlkC d, if_neg hdE]
      exact hcld
  · intro d cld hd hroom
    rw [hlkC d] at hd
    split at hd
    · exact Option.noConfusion hd
    · rename_i hdE
      obtain ⟨ms, hms, hdm⟩ := hInv.regMem d cld hd hroom
      rw [hlkR cld.room]
      split
      · rename_i hcond
        rw [hcond.1] at hms
        rw [hmemsome hcond.2] at hms
        obtain rfl := Option.some.inj hms
        exact ⟨_, rfl, (mem_removeAll hndm).mpr ⟨hdm, hdE⟩⟩
      · exact ⟨ms, hms, hdm⟩
  · rw [hop]
    exact nodup_removeAll hInv.ndOpen
  · intro d hd
    obtain ⟨hd1, hd2⟩ := (hOP d).mp hd
    rw [hlkC d, if_neg hd2]
    exact hInv.openReg d hd1
  · intro d cld hd hdo
    rw [hlkC d] at hd
    split at hd
    · exact Option.noConfusion hd
    · rename_i hdE
      rw [hban]
      refine hInv.staleBan d cld hd (fun hdo' => hdo ((hOP d).mpr ⟨hdo', hdE⟩))
  · intro c1 c2 cl1 cl2 h1 h2 hl1 hl2 ha
    obtain ⟨h1', h1E⟩ := (hOP c1).mp h1
    obtain ⟨h2', h2E⟩ := (hOP c2).mp h2
    rw [hlkC c1, if_neg h1E] at hl1
    rw [hlkC c2, if_neg h2E] at hl2
    exact hInv.addrUniq c1 c2 cl1 cl2 h1' h2' hl1 hl2 ha
  · intro d cld hd hdb
    rw [hlkC d] at hd
    split at hd
    · exact Option.noConfusion hd
    · rw [hban] at hdb
      have hfree := hInv.banRoomless d cld hd hdb
      refine ⟨hfree.1, ?_⟩
      intro r ms hr
      rw [hlkR r] at hr
      split at hr
      · rename_i hcond
        obtain rfl := Option.some.inj hr
        intro hdm
        obtain ⟨hdm', _⟩ := (mem_removeAll hndm).mp hdm
        exact hfree.2 (parseRoom msg) _ (hmemsome hcond.2) hdm'
      · exact hfree.2 r ms hr


/-- Invariant of the intermediate state inside the join/create critical
section: after the acting session `c` has been removed from every member
list, but before it is appended to the target room, the pack holds except
that `c`'s own `room` field need not point anywhere. -/
structure PreInv (c : Nat) (s : ServerState) : Prop where
  ndClients : (s.clients.map Prod.fst).Nodup
  ndRooms : (s.rooms.map Prod.fst).Nodup
  ndMembers : ∀ r ms, lookupKey r s.rooms = some ms → ms.Nodup
  coher : ∀ r ms d, lookupKey r s.rooms = some ms → d ∈ ms →
    ∃ cl, lookupKey d s.clients = some cl ∧ cl.room = r
  regMem : ∀ d cl, d ≠ c → lookupKey d s.clients = some cl → cl.room ≠ [] →
    ∃ ms, lookupKey cl.room s.rooms = some ms ∧ d ∈ ms
  notMem : ∀ r ms, lookupKey r s.rooms = some ms → c ∉ ms
  ndOpen : s.openConns.Nodup
  openReg : ∀ d, d ∈ s.openConns → (lookupKey d s.clients).isSome = true
  staleBan : ∀ d cl, lookupKey d s.clients = some cl → d ∉ s.openConns →
    cl.addr ∈ s.bannedUsers
  addrUniq : ∀ c1 c2 cl1 cl2, c1 ∈ s.openConns → c2 ∈ s.openConns →
    lookupKey c1 s.clients = some cl1 → lookupKey c2 s.clients = some cl2 →
    cl1.addr = cl2.addr → c1 = c2
  banRoomless : ∀ d cl, d ≠ c → lookupKey d s.clients = some cl →
    cl.addr ∈ s.bannedUsers →
    cl.room = [] ∧ ∀ r ms, lookupKey r s.rooms = some ms → d ∉ ms

/-- A session whose `room` field is empty is (in a state with no empty-named
room) in no member list, so the state itself is already the intermediate
state of the move. -/
theorem PreInv_of_roomless {c : Nat} {s : ServerState} {cl : Client} (hInv : Inv s)
    (hclk : lookupKey c s.clients = some cl) (hcr : cl.room = [])
    (hno : [] ∉ s.rooms.map Prod.fst) : PreInv c s := by
  have hnotin : ∀ r ms, lookupKey r s.rooms = some ms → c ∉ ms := by
    intro r ms hr hc
    obtain ⟨cl2, hcl2, hcl2r⟩ := hInv.coher r ms c hr hc
    rw [hclk] at hcl2
    obtain rfl := Option.some.inj hcl2
    rw [hcr] at hcl2r
    exact hno (hcl2r ▸ lookupKey_isSome.mp (by rw [hr]; rfl))
  exact ⟨hInv.ndClients, hInv.ndRooms, hInv.ndMembers, hInv.coher,
    fun d cld _ => hInv.regMem d cld, hnotin, hInv.ndOpen, hInv.openReg,
    hInv.staleBan, hInv.addrUniq, fun d cld _ hd hb => hInv.banRoomless d cld hd hb⟩

/-- Removing the acting session from its (nonempty-named) current room
produces the intermediate state of the move. -/
theorem PreInv_remove {c : Nat} {s : ServerState} {cl : Client} {mso : List Nat}
    (hInv : Inv s) (hclk : lookupKey c s.clients = some cl)
    (hmso : lookupKey cl.room s.rooms = some mso) (q' : List Str) :
    PreInv c { s with
       rooms := mapSet cl.room (removeClient mso c) s.rooms
       queue := q' } := by
  have hnd0 : mso.Nodup := hInv.ndMembers _ mso hmso
  have hlkR : ∀ r, lookupKey r (mapSet cl.room (removeClient mso c) s.rooms) =
      if r = cl.room then some (removeClient mso c) else lookupKey r s.rooms :=
    fun r => lookupKey_mapSet cl.room r _ s.rooms
  refine ⟨hInv.ndClients, nodup_keys_mapSet hInv.ndRooms, ?_, ?_, ?_, ?_, hInv.ndOpen,
    hInv.openReg, hInv.staleBan, hInv.addrUniq, ?_⟩
  · intro r ms hr
    rw [hlkR r] at hr
    split at hr
    · obtain rfl := Option.some.inj hr
      exact (removeClient_sublist mso c).nodup hnd0
    · exact hInv.ndMembers r ms hr
  · intro r ms d hr hd
    rw [hlkR r] at hr
    split at hr
    · rename_i hre
      obtain rfl := Option.some.inj hr
      obtain ⟨cld, hcld, hcldr⟩ := hInv.coher _ mso d hmso (mem_removeClient hd)
      exact ⟨cld, hcld, hre ▸ hcldr⟩
    · exact hInv.coher r ms d hr hd
  · intro d cld hdc hd hroom
    obtain ⟨ms, hms, hdm⟩ := hInv.regMem d cld hd hroom
    rw [hlkR cld.room]
    split
    · rename_i hre
      rw [hre, hmso] at hms
      obtain rfl := Option.some.inj hms
      exact ⟨removeClient mso c, rfl, (mem_removeClient_ne hdc).mpr hdm⟩
    · exact ⟨ms, hms, hdm⟩
  · intro r ms hr
    rw [hlkR r] at hr
    split at hr
    · obtain rfl := Option.some.inj hr
      exact not_mem_removeClient hnd0
    · rename_i hrne
      intro hcm
      obtain ⟨cl2, hcl2, hcl2r⟩ := hInv.coher r ms c hr hcm
      rw [hclk] at hcl2
      obtain rfl := Option.some.inj hcl2
      exact hrne hcl2r.symm
  · intro d cld hdc hd hdb
    have hfree := hInv.banRoomless d cld hd hdb
    refine ⟨hfree.1, ?_⟩
    intro r ms hr
    rw [hlkR r] at hr
    split at hr
    · obtain rfl := Option.some.inj hr
      intro hdm
      exact hfree.2 _ mso hmso (mem_removeClient hdm)
    · exact hfree.2 r ms hr

/-- Appending the acting session to the target room's member list and
pointing its `room` field there restores the full invariant. -/
theorem Inv_add {c : Nat} {t : ServerState} {cl : Client} {rn : Str} {msrn : List Nat}
    (hP : PreInv c t) (hclk : lookupKey c t.clients = some cl)
    (hrn : lookupKey rn t.rooms = some msrn) (hban : cl.addr ∉ t.bannedUsers)
    (q' : List Str) :
    Inv { t with
       rooms := mapSet rn (msrn ++ [c]) t.rooms
       clients := mapSet c { cl with room := rn } t.clients
       queue := q' } := by
  have hcm : c ∉ msrn := hP.notMem rn msrn hrn
  have hlkS : ∀ d, lookupKey d (mapSet c { cl with room := rn } t.clients) =
      if d = c then some { cl with room := rn } else lookupKey d t.clients :=
    fun d => lookupKey_mapSet c d _ t.clients
  have hlkR : ∀ r, lookupKey r (mapSet rn (msrn ++ [c]) t.rooms) =
      if r = rn then some (msrn ++ [c]) else lookupKey r t.rooms :=
    fun r => lookupKey_mapSet rn r _ t.rooms
  refine ⟨nodup_keys_mapSet hP.ndClients, nodup_keys_mapSet hP.ndRooms, ?_, ?_, ?_,
    hP.ndOpen, ?_, ?_, ?_, ?_⟩
  · intro r ms hr
    rw [hlkR r] at hr
    split at hr
    · obtain rfl := Option.some.inj hr
      refine List.nodup_append.mpr ⟨hP.ndMembers rn msrn hrn, List.nodup_singleton c, ?_⟩
      intro x hx hxc
      rcases List.mem_singleton.mp hxc with rfl
      exact hcm hx
    · exact hP.ndMembers r ms hr
  · intro r ms d hr hd
    rw [hlkR r] at hr
    split at hr
    · rename_i hre
      obtain rfl := Option.some.inj hr
      rcases List.mem_append.mp hd with hd | hd
      · have hdc : d ≠ c := fun h => hcm (h ▸ hd)
        obtain ⟨cld, hcld, hcldr⟩ := hP.coher rn msrn d hrn hd
        refine ⟨cld, ?_, hre ▸ hcldr⟩
        rw [hlkS d, if_neg hdc]
        exact hcld
      · rcases List.mem_singleton.mp hd with rfl
        refine ⟨{ cl with room := rn }, ?_, hre ▸ rfl⟩
        rw [hlkS d, if_pos rfl]
    · rename_i hrne
      obtain ⟨cld, hcld, hcldr⟩ := hP.coher r ms d hr hd
      have hdc : d ≠ c := fun h => hP.notMem r ms hr (h ▸ hd)
      refine ⟨cld, ?_, hcldr⟩
      rw [hlkS d, if_neg hdc]
      exact hcld
  · intro d cld hd hroom
    rw [hlkS d] at hd
    split at hd
    · rename_i hde
      obtain rfl := Option.some.inj hd
      refine ⟨msrn ++ [c], ?_, ?_⟩
      · show lookupKey rn _ = _
        rw [hlkR rn, if_pos rfl]
      · exact hde ▸ List.mem_append.mpr (Or.inr (List.mem_singleton.mpr rfl))
    · rename_i hdc
      obtain ⟨ms, hms, hdm⟩ := hP.regMem d cld hdc hd hroom
      rw [hlkR cld.room]
      split
      · rename_i hre
        rw [hre, hrn] at hms
        obtain rfl := Option.some.inj hms
        exact ⟨msrn ++ [c], rfl, List.mem_append.mpr (Or.inl hdm)⟩
      · exact ⟨ms, hms, hdm⟩
  · intro d hd
    rw [hlkS d]
    split
    · simp
    · exact hP.openReg d hd
  · intro d cld hd hdo
    rw [hlkS d] at hd
    split at hd
    · rename_i hde
      obtain rfl := Option.some.inj hd
      rw [hde] at hdo
      exact hP.staleBan c cl hclk hdo
    · exact hP.staleBan d cld hd hdo
  · intro c1 c2 cl1 cl2 h1 h2 hl1 hl2 ha
    rw [hlkS c1] at hl1
    rw [hlkS c2] at hl2
    by_cases e1 : c1 = c <;> by_cases e2 : c2 = c
    · rw [e1, e2]
    · rw [if_pos e1] at hl1
      rw [if_neg e2] at hl2
      obtain rfl := Option.some.inj hl1
      exact hP.addrUniq c1 c2 cl cl2 h1 h2 (e1 ▸ hclk) hl2 ha
    · rw [if_neg e1] at hl1
      rw [if_pos e2] at hl2
      obtain rfl := Option.some.inj hl2
      exact hP.addrUniq c1 c2 cl1 cl h1 h2 hl1 (e2 ▸ hclk) ha
    · rw [if_neg e1] at hl1
      rw [if_neg e2] at hl2
      exact hP.addrUniq c1 c2 cl1 cl2 h1 h2 hl1 hl2 ha
  · intro d cld hd hdb
    rw [hlkS d] at hd
    split at hd
    · obtain rfl := Option.some.inj hd
      exact absurd hdb hban
    · rename_i hdc
      have hfree := hP.banRoomless d cld hdc hd hdb
      refine ⟨hfree.1, ?_⟩
      intro r ms hr
      rw [hlkR r] at hr
      split at hr
      · obtain rfl := Option.some.inj hr
        intro hdm
        rcases List.mem_append.mp hdm with hdm | hdm
        · exact hfree.2 rn msrn hrn hdm
        · exact hdc (List.mem_singleton.mp hdm)
      · exact hfree.2 r ms hr

/-- Installing a fresh empty room preserves the invariant. -/
theorem Inv_createEmpty {rn : Str} {s : ServerState} (hInv : Inv s)
    (hrn : lookupKey rn s.rooms = none) :
    Inv { s with rooms := mapSet rn [] s.rooms } := by
  have hlkR : ∀ r, lookupKey r (mapSet rn [] s.rooms) =
      if r = rn then some [] else lookupKey r s.rooms :=
    fun r => lookupKey_mapSet rn r _ s.rooms
  refine ⟨hInv.ndClients, nodup_keys_mapSet hInv.ndRooms, ?_, ?_, ?_, hInv.ndOpen,
    hInv.openReg, hInv.staleBan, hInv.addrUniq, ?_⟩
  · intro r ms hr
    rw [hlkR r] at hr
    split at hr
    · obtain rfl := Option.some.inj hr
      exact List.nodup_nil
    · exact hInv.ndMembers r ms hr
  · intro r ms d hr hd
    rw [hlkR r] at hr
    split at hr
    · obtain rfl := Option.some.inj hr
      simp at hd
    · exact hInv.coher r ms d hr hd
  · intro d cld hd hroom
    obtain ⟨ms, hms, hdm⟩ := hInv.regMem d cld hd hroom
    rw [hlkR cld.room]
    split
    · rename_i hre
      rw [hre, hrn] at hms
      exact Option.noConfusion hms
    · exact ⟨ms, hms, hdm⟩
  · intro d cld hd hdb
    have hfree := hInv.banRoomless d cld hd hdb
    refine ⟨hfree.1, ?_⟩
    intro r ms hr
    rw [hlkR r] at hr
    split at hr
    · obtain rfl := Option.some.inj hr
      simp
    · exact hfree.2 r ms hr


theorem handleCommand_inv (msg : Str) (c : Nat) (s : ServerState) (hInv : Inv s)
    (hno : [] ∉ s.rooms.map Prod.fst)
    (hno' : [] ∉ (handleCommand msg c s).1.rooms.map Prod.fst) :
    Inv (handleCommand msg c s).1 := by
  rcases hclk : lookupKey c s.clients with _ | cl
  · have heq : (handleCommand msg c s).1 = s := by
      simp only [handleCommand, hclk]
    rw [heq]
    exact hInv
  · by_cases hj : (splitSp msg).headD [] = "/join".data
    · by_cases hlen : (splitSp msg).length < 2
      · have heq : (handleCommand msg c s).1 = s := by
          simp only [handleCommand, hclk]
          rw [if_pos hj, if_pos hlen]
        rw [heq]
        exact hInv
      · rcases hrn : lookupKey ((splitSp msg).getD 1 []) s.rooms with _ | msrn
        · have heq : (handleCommand msg c s).1 = s := by
            simp only [handleCommand, hclk]
            rw [if_pos hj, if_neg hlen]
            simp only [hrn]
          rw [heq]
          exact hInv
        · by_cases hb : cl.addr ∈ s.bannedUsers
          · have heq : (handleCommand msg c s).1 = s := by
              simp only [handleCommand, hclk]
              rw [if_pos hj, if_neg hlen]
              simp only [hrn]
              rw [if_pos hb]
            rw [heq]
            exact hInv
          · by_cases hcr : cl.room = []
            · have heq : (handleCommand msg c s).1 =
                  { s with
                    rooms := mapSet ((splitSp msg).getD 1 []) (msrn ++ [c]) s.rooms
                    clients := mapSet c { cl with room := (splitSp msg).getD 1 [] } s.clients
                    queue := s.queue ++
                      [joinNotice ((splitSp msg).getD 1 []) cl.username] } := by
                simp only [handleCommand, hclk]
                rw [if_pos hj, if_neg hlen]
                simp only [hrn]
                rw [if_neg hb, if_neg (not_not_intro hcr)]
                simp only [hrn, Option.getD_some]
              rw [heq]
              exact Inv_add (PreInv_of_roomless hInv hclk hcr hno) hclk hrn hb _
            · obtain ⟨mso, hmso, _⟩ := hInv.regMem c cl hclk hcr
              have heq : (handleCommand msg c s).1 =
                  { s with
                    rooms := mapSet ((splitSp msg).getD 1 [])
                      ((lookupKey ((splitSp msg).getD 1 [])
                        (mapSet cl.room (removeClient mso c) s.rooms)).getD [] ++ [c])
                      (mapSet cl.room (removeClient mso c) s.rooms)
                    clients := mapSet c { cl with room := (splitSp msg).getD 1 [] }
                      s.clients
                    queue := (s.queue ++ [leaveNotice cl.room cl.username]) ++
                      [joinNotice ((splitSp msg).getD 1 []) cl.username] } := by
                simp only [handleCommand, hclk]
                rw [if_pos hj, if_neg hlen]
                simp only [hrn]
                rw [if_neg hb, if_pos hcr]
                simp only [hmso, Option.getD_some]
              rw [heq]
              have hP := PreInv_remove hInv hclk hmso
                (s.queue ++ [leaveNotice cl.room cl.username])
              by_cases hsame : (splitSp msg).getD 1 [] = cl.room
              · have hsome : lookupKey ((splitSp msg).getD 1 [])
                    (mapSet cl.room (removeClient mso c) s.rooms) =
                      some (removeClient mso c) := by
                  rw [hsame]
                  exact lookupKey_mapSet_self _ _ s.rooms
                rw [hsome]
                exact Inv_add hP hclk hsome hb _
              · have hsome : lookupKey ((splitSp msg).getD 1 [])
                    (mapSet cl.room (removeClient mso c) s.rooms) = some msrn := by
                  rw [lookupKey_mapSet_ne _ _ hsame]
                  exact hrn
                rw [hsome]
                exact Inv_add hP hclk hsome hb _
    · by_cases hc2 : (splitSp msg).headD [] = "/create".data
      · by_cases hlen : (splitSp msg).length < 2
        · have heq : (handleCommand msg c s).1 = s := by
            simp only [handleCommand, hclk]
            rw [if_neg hj, if_pos hc2, if_pos hlen]
          rw [heq]
          exact hInv
        · rcases hrn : lookupKey ((splitSp msg).getD 1 []) s.rooms with _ | msrn
          · by_cases hb : cl.addr ∈ s.bannedUsers
            · have heq : (handleCommand msg c s).1 = s := by
                simp only [handleCommand, hclk]
                rw [if_neg hj, if_pos hc2, if_neg hlen]
                simp only [hrn]
                rw [if_pos hb]
              rw [heq]
              exact hInv
            · have hs0 : Inv { s with
                  rooms := mapSet ((splitSp msg).getD 1 []) [] s.rooms } :=
                Inv_createEmpty hInv hrn
              have hlk0 : lookupKey ((splitSp msg).getD 1 [])
                  (mapSet ((splitSp msg).getD 1 []) [] s.rooms) = some [] :=
                lookupKey_mapSet_self _ _ s.rooms
              by_cases hcr : cl.room = []
              · have heq : (handleCommand msg c s).1 =
                    { s with
                      rooms := mapSet ((splitSp msg).getD 1 []) ([] ++ [c])
                        (mapSet ((splitSp msg).getD 1 []) [] s.rooms)
                      clients := mapSet c { cl with room := (splitSp msg).getD 1 [] }
                        s.clients
                      queue := s.queue ++
                        [createdNotice ((splitSp msg).getD 1 []) cl.username] } := by
                  simp only [handleCommand, hclk]
                  rw [if_neg hj, if_pos hc2, if_neg hlen]
                  simp only [hrn]
                  rw [if_neg hb, if_neg (not_not_intro hcr)]
                  simp only [lookupKey_mapSet_self, Option.getD_some]
                rw [heq]
                have hrnne : (splitSp msg).getD 1 [] ≠ [] := by
                  intro h
                  apply hno'
                  rw [heq]
                  exact mem_keys_mapSet.mpr (Or.inl h.symm)
                have hno0 : [] ∉ (mapSet ((splitSp msg).getD 1 []) []
                    s.rooms).map Prod.fst := by
                  intro h
                  rcases mem_keys_mapSet.mp h with h | h
                  · exact hrnne h.symm
                  · exact hno h
                exact Inv_add (PreInv_of_roomless hs0 hclk hcr hno0) hclk hlk0 hb _
              · have hcrn : cl.room ≠ (splitSp msg).getD 1 [] := by
                  intro h
                  obtain ⟨ms, hms, _⟩ := hInv.regMem c cl hclk hcr
                  rw [h, hrn] at hms
                  exact Option.noConfusion hms
                obtain ⟨mso, hmso, _⟩ := hInv.regMem c cl hclk hcr
                have hmso0 : lookupKey cl.room
                    (mapSet ((splitSp msg).getD 1 []) [] s.rooms) = some mso := by
                  rw [lookupKey_mapSet_ne _ _ hcrn]
                  exact hmso
                have heq : (handleCommand msg c s).1 =
                    { s with
                      rooms := mapSet ((splitSp msg).getD 1 [])
                        ((lookupKey ((splitSp msg).getD 1 [])
                          (mapSet cl.room (removeClient mso c)
                            (mapSet ((splitSp msg).getD 1 []) [] s.rooms))).getD [] ++ [c])
                        (mapSet cl.room (removeClient mso c)
                          (mapSet ((splitSp msg).getD 1 []) [] s.rooms))
                      clients := mapSet c { cl with room := (splitSp msg).getD 1 [] }
                        s.clients
                      queue := (s.queue ++ [leaveNotice cl.room cl.username]) ++
                        [createdNotice ((splitSp msg).getD 1 []) cl.username] } := by
                  simp only [handleCommand, hclk]
                  rw [if_neg hj, if_pos hc2, if_neg hlen]
                  simp only [hrn]
                  rw [if_neg hb, if_pos hcr]
                  simp only [hmso0, Option.getD_some]

                rw [heq]
                have hP := PreInv_remove hs0 hclk hmso0
                  (s.queue ++ [leaveNotice cl.room cl.username])
                have hsome : lookupKey ((splitSp msg).getD 1 [])
                    (mapSet cl.room (removeClient mso c)
                      (mapSet ((splitSp msg).getD 1 []) [] s.rooms)) = some [] := by
                  rw [lookupKey_mapSet_ne _ _ (fun h => hcrn h.symm)]
                  exact hlk0
                rw [hsome]
                exact Inv_add hP hclk hsome hb _
          · have heq : (handleCommand msg c s).1 = s := by
              simp only [handleCommand, hclk]
              rw [if_neg hj, if_pos hc2, if_neg hlen]
              simp only [hrn]
            rw [heq]
            exact hInv
      · have heq : (handleCommand msg c s).1 = s := by
          simp only [handleCommand, hclk]
          rw [if_neg hj, if_neg hc2]
          split <;> rfl
        rw [heq]
        exact hInv

theorem handleCommand_rooms_mono (msg : Str) (c : Nat) (s : ServerState) (r : Str)
    (hr : r ∈ s.rooms.map Prod.fst) :
    r ∈ (handleCommand msg c s).1.rooms.map Prod.fst := by
  rcases hclk : lookupKey c s.clients with _ | cl
  · simp only [handleCommand, hclk]
    exact hr
  · simp only [handleCommand, hclk]
    repeat' split
    all_goals simp only [mem_keys_mapSet]
    all_goals tauto

theorem kickUser_rooms_mono (c : Nat) (s : ServerState) (r : Str)
    (hr : r ∈ s.rooms.map Prod.fst) : r ∈ (kickUser c s).1.rooms.map Prod.fst := by
  simp only [kickUser]
  repeat' split
  all_goals simp only [mem_keys_mapSet]
  all_goals tauto

theorem banUser_rooms_mono (c : Nat) (s : ServerState) (r : Str)
    (hr : r ∈ s.rooms.map Prod.fst) : r ∈ (banUser c s).1.rooms.map Prod.fst := by
  simp only [banUser]
  split
  · exact hr
  · exact kickUser_rooms_mono _ _ _ hr

theorem inputLine_rooms_mono (c : Nat) (time line : Str) (s : ServerState) (r : Str)
    (hr : r ∈ s.rooms.map Prod.fst) :
    r ∈ (inputLine c time line s).1.rooms.map Prod.fst := by
  simp only [inputLine]
  repeat' split
  any_goals exact hr
  exact handleCommand_rooms_mono _ _ _ _ hr

theorem handleBroadcastMsg_rooms_mono (dead : List Nat) (msg : Str) (s : ServerState)
    (r : Str) (hr : r ∈ s.rooms.map Prod.fst) :
    r ∈ (handleBroadcastMsg dead msg s).1.rooms.map Prod.fst := by
  simp only [handleBroadcastMsg]
  split
  · exact mem_keys_mapSet.mpr (Or.inr hr)
  · exact hr

theorem step_rooms_mono (e : Event) (s : ServerState) (r : Str)
    (hr : r ∈ s.rooms.map Prod.fst) : r ∈ (step e s).1.rooms.map Prod.fst := by
  cases e with
  | connect c a =>
    simp only [step, connectConn]
    repeat' split
    all_goals exact hr
  | input c time line => exact inputLine_rooms_mono c time line s r hr
  | disconnect c =>
    simp only [step, disconnectConn]
    repeat' split
    all_goals simp only [mem_keys_mapSet]
    all_goals tauto
  | router dead =>
    rcases hq : s.queue with _ | ⟨msg, rest⟩
    · simp only [step, hq]
      exact hr
    · simp only [step, hq]
      exact handleBroadcastMsg_rooms_mono dead msg _ r hr
  | kick c =>
    simp only [step]
    split
    · exact kickUser_rooms_mono c s r hr
    · exact hr
  | ban c => exact banUser_rooms_mono c s r hr

theorem inputLine_inv (c : Nat) (time line : Str) (s : ServerState) (hInv : Inv s)
    (hno : [] ∉ s.rooms.map Prod.fst)
    (hno' : [] ∉ (inputLine c time line s).1.rooms.map Prod.fst) :
    Inv (inputLine c time line s).1 := by
  by_cases hopen : c ∈ s.openConns
  · rcases hclk : lookupKey c s.clients with _ | cl
    · have heq : (inputLine c time line s).1 = s := by
        simp only [inputLine, if_pos hopen, hclk]
      rw [heq]
      exact hInv
    · by_cases hsl : startsSlash (trimSp line) = true
      · have heq : (inputLine c time line s).1 = (handleCommand (trimSp line) c s).1 := by
          simp only [inputLine, if_pos hopen, hclk, hsl, if_true]
        rw [heq]
        refine handleCommand_inv _ _ _ hInv hno ?_
        rw [← heq]
        exact hno'
      · by_cases hcr : cl.room = []
        · have heq : (inputLine c time line s).1 = s := by
            simp only [inputLine, if_pos hopen, hclk, hsl, if_false, Bool.false_eq_true,
              if_pos hcr]
          rw [heq]
          exact hInv
        · have heq : (inputLine c time line s).1 =
              { s with queue := s.queue ++
                  [renderChat cl.room time cl.username (trimSp line)] } := by
            simp only [inputLine, if_pos hopen, hclk, hsl, if_false, Bool.false_eq_true,
              if_neg hcr]
          rw [heq]
          exact ⟨hInv.ndClients, hInv.ndRooms, hInv.ndMembers, hInv.coher, hInv.regMem,
            hInv.ndOpen, hInv.openReg, hInv.staleBan, hInv.addrUniq, hInv.banRoomless⟩
  · have heq : (inputLine c time line s).1 = s := by
      simp only [inputLine, if_neg hopen]
    rw [heq]
    exact hInv

theorem step_inv (e : Event) (s : ServerState) (hInv : Inv s)
    (hno : [] ∉ s.rooms.map Prod.fst)
    (hno' : [] ∉ (step e s).1.rooms.map Prod.fst) :
    Inv (step e s).1 := by
  cases e with
  | connect c a => exact connect_inv c a s hInv
  | input c time line => exact inputLine_inv c time line s hInv hno hno'
  | disconnect c => exact disconnect_inv c s hInv hno
  | router dead =>
    rcases hq : s.queue with _ | ⟨msg, rest⟩
    · have heq : (step (.router dead) s).1 = s := by
        simp only [step, hq]
      rw [heq]
      exact hInv
    · have heq : (step (.router dead) s).1 =
          (handleBroadcastMsg dead msg { s with queue := rest }).1 := by
        simp only [step, hq]
      rw [heq]
      exact router_inv dead msg _ ⟨hInv.ndClients, hInv.ndRooms, hInv.ndMembers,
        hInv.coher, hInv.regMem, hInv.ndOpen, hInv.openReg, hInv.staleBan,
        hInv.addrUniq, hInv.banRoomless⟩
  | kick c =>
    by_cases hk : (lookupKey c s.clients).isSome = true
    · have heq : (step (.kick c) s).1 = (kickUser c s).1 := by
        simp only [step, hk, if_true]
      rw [heq]
      exact kick_inv c s hInv
    · have heq : (step (.kick c) s).1 = s := by
        simp only [step, hk, Bool.false_eq_true, if_false]
      rw [heq]
      exact hInv
  | ban c => exact ban_inv c s hInv

theorem run_append_singleton (es : List Event) (e : Event) :
    run (es ++ [e]) = (step e (run es)).1 := by
  simp [run, List.foldl_append]

theorem run_inv (es : List Event) (hno : [] ∉ (run es).rooms.map Prod.fst) :
    Inv (run es) := by
  induction es using List.reverseRecOn with
  | nil => exact Inv_init
  | append_singleton es e ih =>
    rw [run_append_singleton] at hno ⊢
    have hnoPre : [] ∉ (run es).rooms.map Prod.fst :=
      fun h => hno (step_rooms_mono e (run es) [] h)
    exact step_inv e (run es) (ih hnoPre) hnoPre hno

/-- The reachable state in which connection 1, whose address "A" is banned,
is still a member of the empty-named room: "/create  q" (double space)
creates room "" and joins it, "/join  q" re-joins it without leaving
(duplicating the membership), "/create x" moves to room "x" without leaving
room "", and the ban's kick removes the client from "x" (the written key is
the client's room field), leaving the stale memberships in room "". -/
def exBannedGhost : ServerState :=
  run [.connect 1 "A".data,
       .input 1 "9:00AM".data "/create  q\n".data,
       .input 1 "9:00AM".data "/join  q\n".data,
       .input 1 "9:00AM".data "/create x\n".data,
       .ban 1]

/-- Claim C2: in every reachable state with no empty-named room, every
registered session whose address is banned is roomless and is a member of
no room's member list; and a /join or /create from a session whose address
is banned never changes the state and always fails with a single error
reply to that session — the usage, room-not-found, room-already-exists or
banned error (the ban reply itself only when the length and existence
checks pass, as those run first). -/
theorem C2_banned_no_membership_join_create_fail :
    (∀ es c cl, [] ∉ (run es).rooms.map Prod.fst →
      lookupKey c (run es).clients = some cl →
      cl.addr ∈ (run es).bannedUsers →
      cl.room = [] ∧ ∀ r ms, lookupKey r (run es).rooms = some ms → c ∉ ms) ∧
    (∀ msg c s cl, lookupKey c s.clients = some cl →
      cl.addr ∈ s.bannedUsers →
      ((splitSp msg).headD [] = "/join".data ∨
        (splitSp msg).headD [] = "/create".data) →
      (handleCommand msg c s).1 = s ∧
        ∃ m, (handleCommand msg c s).2 = [(c, m)] ∧
          (m = usageJoin ∨ m = usageCreate ∨
           m = roomNotFound ((splitSp msg).getD 1 []) ∨
           m = roomExistsMsg ((splitSp msg).getD 1 []) ∨ m = bannedMsg)) := by
  constructor
  · intro es c cl hno hclk hb
    exact (run_inv es hno).banRoomless c cl hclk hb
  · intro msg c s cl hclk hb hcmd
    rcases hcmd with hj | hc2
    · by_cases hlen : (splitSp msg).length < 2
      · have heq : handleCommand msg c s = (s, [(c, usageJoin)]) := by
          simp only [handleCommand, hclk]
          rw [if_pos hj, if_pos hlen]
        rw [heq]
        exact ⟨rfl, usageJoin, rfl, Or.inl rfl⟩
      · rcases hrn : lookupKey ((splitSp msg).getD 1 []) s.rooms with _ | msrn
        · have heq : handleCommand msg c s =
              (s, [(c, roomNotFound ((splitSp msg).getD 1 []))]) := by
            simp only [handleCommand, hclk]
            rw [if_pos hj, if_neg hlen]
            simp only [hrn]
          rw [heq]
          exact ⟨rfl, _, rfl, Or.inr (Or.inr (Or.inl rfl))⟩
        · have heq : handleCommand msg c s = (s, [(c, bannedMsg)]) := by
            simp only [handleCommand, hclk]
            rw [if_pos hj, if_neg hlen]
            simp only [hrn]
            rw [if_pos hb]
          rw [heq]
          exact ⟨rfl, _, rfl, Or.inr (Or.inr (Or.inr (Or.inr rfl)))⟩
    · have hj' : ¬((splitSp msg).headD [] = "/join".data) := by
        rw [hc2]
        decide
      by_cases hlen : (splitSp msg).length < 2
      · have heq : handleCommand msg c s = (s, [(c, usageCreate)]) := by
          simp only [handleCommand, hclk]
          rw [if_neg hj', if_pos hc2, if_pos hlen]
        rw [heq]
        exact ⟨rfl, _, rfl, Or.inr (Or.inl rfl)⟩
      · rcases hrn : lookupKey ((splitSp msg).getD 1 []) s.rooms with _ | msrn
        · have heq : handleCommand msg c s = (s, [(c, bannedMsg)]) := by
            simp only [handleCommand, hclk]
            rw [if_neg hj', if_pos hc2, if_neg hlen]
            simp only [hrn]
            rw [if_pos hb]
          rw [heq]
          exact ⟨rfl, _, rfl, Or.inr (Or.inr (Or.inr (Or.inr rfl)))⟩
        · have heq : handleCommand msg c s =
              (s, [(c, roomExistsMsg ((splitSp msg).getD 1 []))]) := by
            simp only [handleCommand, hclk]
            rw [if_neg hj', if_pos hc2, if_neg hlen]
            simp only [hrn]
          rw [heq]
          exact ⟨rfl, _, rfl, Or.inr (Or.inr (Or.inr (Or.inl rfl)))⟩

/-- Witness for C2: after connect-then-ban, the banned session is roomless
and in no member list, and its "/join x" fails (room-not-found) with the
state unchanged. -/
theorem C2_banned_no_membership_join_create_fail_witness :
    ((Client.mk "A".data "Anonymous".data []).room = [] ∧
      (∀ r ms, lookupKey r (run [.connect 1 "A".data, .ban 1]).rooms = some ms →
        1 ∉ ms)) ∧
    ((handleCommand "/join x".data 1 (run [.connect 1 "A".data, .ban 1])).1 =
        run [.connect 1 "A".data, .ban 1] ∧
      ∃ m, (handleCommand "/join x".data 1
          (run [.connect 1 "A".data, .ban 1])).2 = [(1, m)] ∧
        (m = usageJoin ∨ m = usageCreate ∨
         m = roomNotFound ((splitSp "/join x".data).getD 1 []) ∨
         m = roomExistsMsg ((splitSp "/join x".data).getD 1 []) ∨
         m = bannedMsg)) :=
  ⟨C2_banned_no_membership_join_create_fail.1 [.connect 1 "A".data, .ban 1] 1
      (Client.mk "A".data "Anonymous".data []) (by decide) (by decide) (by decide),
   C2_banned_no_membership_join_create_fail.2 "/join x".data 1
      (run [.connect 1 "A".data, .ban 1])
      (Client.mk "A".data "Anonymous".data []) (by decide) (by decide)
      (Or.inl (by decide))⟩

/-- Counterexample for C2 as stated: `exBannedGhost` is reachable, the
address "A" is banned there, yet the session with that address is still a
member of the empty-named room; and a banned "/join nosuch" fails with the
room-not-found error, not the Banned error. -/
theorem C2_counter_banned_member :
    ("A".data ∈ exBannedGhost.bannedUsers ∧
      (lookupKey 1 exBannedGhost.clients).map Client.addr = some "A".data ∧
      1 ∈ (lookupKey ([] : Str) exBannedGhost.rooms).getD []) ∧
    (handleCommand "/join nosuch".data 1 exBannedGhost).2 =
      [(1, roomNotFound "nosuch".data)] ∧
    roomNotFound "nosuch".data ≠ bannedMsg := by
  decide

end ChatRelay
